import Mathlib

/-!
Verification development for the semantic-analysis and optimization stage of
the TDDB44 compiler front end (files `semantic.cc` and `optimize.cc`).

The C++ passes mutate a shared AST in place; here each pass is embedded as a
pure function returning the rewritten tree together with its other outputs
(returned type, emitted diagnostics, the has-return flag).  A C++ child
pointer that may be NULL is modelled by a dedicated nil constructor of the
list types; `ast_expr_list` / `ast_stmt_list` / `ast_elsif_list`, which are
linked via a `preceding` pointer plus a `last_*` field, are modelled by
inductives of exactly that shape.  C++ `long` arithmetic is modelled by
unbounded `Int` (no claim concerns overflow); C++ `double` values are
modelled by `Rat` (no claim depends on floating rounding).
-/

/-- Symbol-table indices (`sym_index` in the C++). -/
abbrev SymIdx := Nat

/-- Modelled from the spec: the three built-in type handles `void`,
`integer` and `real` are distinct symbol-table indices (their definitions
live in the symbol-table sources, which are not part of this repository).
`void_type` is also the initial value of an expression node's `type` field,
which the spec describes as "unset until the Type Checker writes it". -/
def void_type : SymIdx := 0

def integer_type : SymIdx := 1

def real_type : SymIdx := 2

/-- Symbol tags (`SYM_VAR`, `SYM_CONST`, `SYM_NAMETYPE`, `SYM_FUNC`,
`SYM_PROC`). -/
inductive SymKind where
  | var
  | const
  | nametype
  | func
  | proc
deriving DecidableEq, Repr

/-- One symbol-table entry: its tag, its type (for a function, the declared
return type; for a constant, the constant's type), the constant value
(`const_value.ival` / `const_value.rval`), and for functions/procedures the
formal-parameter types.  The formal list is kept in the linked order of the
C++ `parameter_symbol` chain: head = `last_parameter`, tail = the
`preceding` chain. -/
structure SymbolEntry where
  tag : SymKind
  ty : SymIdx
  ival : Int
  rval : Rat
  formals : List SymIdx
deriving DecidableEq

/-- The symbol table as seen by the two passes: a resolver from indices to
entries plus the `current_environment()` cursor. -/
structure SymTab where
  syms : Nat → SymbolEntry
  curEnv : Nat

/-- The eight concrete `ast_binaryoperation` subclasses. -/
inductive BinOp where
  | add
  | sub
  | mult
  | divide
  | andOp
  | orOp
  | idiv
  | modOp
deriving DecidableEq, Repr

/-- The four concrete `ast_binaryrelation` subclasses. -/
inductive RelOp where
  | eq
  | neq
  | lt
  | gt
deriving DecidableEq, Repr

/-- One diagnostic, identified by its `type_error` call site in
`semantic.cc` (the C++ reports free-form text; each constructor below
corresponds to exactly one reporting statement).  The two `fatal` sites
reachable from the embedded code are modelled as diagnostics as well; in
C++ they abort the process. -/
inductive Diag where
  | indexNotInteger
  | rightNotInt (op : String)
  | leftNotInt (op : String)
  | whileCondNotInteger
  | ifCondNotInteger
  | elsifCondNotInteger
  | notOperandNotInteger
  | mustReturnValue
  | returnValueFromFunction
  | procMayNotReturn
  | badReturnType
  | assignRealToInt
  | fatalAbstract
  | fatalUnknownSym
deriving DecidableEq, Repr

mutual
/-- Expression nodes (`ast_expression` subclasses).  Every node carries its
mutable `type` field; the parser initializes it to `void_type` except where
the constructors set it (literals, casts, identifiers, calls — see the
`mk*` helpers below). -/
inductive Expr where
  | idn (ty : SymIdx) (sym : Nat)
  | intlit (ty : SymIdx) (v : Int)
  | reallit (ty : SymIdx) (v : Rat)
  | cast (ty : SymIdx) (e : Expr)
  | uminus (ty : SymIdx) (e : Expr)
  | notOp (ty : SymIdx) (e : Expr)
  | binop (ty : SymIdx) (op : BinOp) (l r : Expr)
  | binrel (ty : SymIdx) (op : RelOp) (l r : Expr)
  | indexed (ty : SymIdx) (idTy : SymIdx) (idSym : Nat) (index : Expr)
  | funccall (ty : SymIdx) (fsym : Nat) (args : ExprList)

/-- `ast_expr_list`: a possibly-NULL chain of `preceding` pointers ending in
a `last_expr`.  `enil` is the NULL pointer. -/
inductive ExprList where
  | enil
  | elist (preceding : ExprList) (last : Expr)
end

deriving instance DecidableEq for Expr, ExprList

/-- The `type` field of an expression node. -/
def Expr.tyOf : Expr → SymIdx
  | .idn ty _ => ty
  | .intlit ty _ => ty
  | .reallit ty _ => ty
  | .cast ty _ => ty
  | .uminus ty _ => ty
  | .notOp ty _ => ty
  | .binop ty _ _ _ => ty
  | .binrel ty _ _ _ => ty
  | .indexed ty _ _ _ => ty
  | .funccall ty _ _ => ty

/-- Modelled from the spec: the `ast_integer` constructor (in the AST
sources, not part of this repository) sets the node's type to the built-in
integer type. -/
def mkInt (v : Int) : Expr := .intlit integer_type v

/-- Modelled from the spec: the `ast_real` constructor sets the node's type
to the built-in real type. -/
def mkReal (v : Rat) : Expr := .reallit real_type v

/-- Modelled from the spec: a cast node "carries resolved type `real`" from
construction (`ast_cast` constructor, not part of this repository). -/
def mkCast (e : Expr) : Expr := .cast real_type e

mutual
/-- Number of nodes of an expression tree (used as the termination measure
of the folder, which re-folds already-folded children). -/
def esize : Expr → Nat
  | .idn _ _ => 1
  | .intlit _ _ => 1
  | .reallit _ _ => 1
  | .cast _ e => 1 + esize e
  | .uminus _ e => 1 + esize e
  | .notOp _ e => 1 + esize e
  | .binop _ _ l r => 1 + esize l + esize r
  | .binrel _ _ l r => 1 + esize l + esize r
  | .indexed _ _ _ ix => 1 + esize ix
  | .funccall _ _ args => 1 + lsize args

def lsize : ExprList → Nat
  | .enil => 0
  | .elist pre last => 1 + lsize pre + esize last
end

/-- `ast_optimizer::is_binop`: true exactly for the eight
arithmetic/logical binary-operation tags. -/
def isBinopE : Expr → Bool
  | .binop _ _ _ _ => true
  | _ => false

/-- `ast_optimizer::is_const`: an integer literal, a real literal, or an
identifier whose symbol is tagged `SYM_CONST`. -/
def isConst (st : SymTab) : Expr → Bool
  | .intlit _ _ => true
  | .reallit _ _ => true
  | .idn _ s => (st.syms s).tag == SymKind.const
  | _ => false

/-- Integer value extraction in the integer/integer branch of
`fold_constants`: a constant identifier yields the symbol's
`const_value.ival`, otherwise `get_ast_integer()->value`.  The catch-all 0
stands for the C++ type confusion of calling `get_ast_integer` on a
non-integer node, which cannot happen on the guarded paths. -/
def intValOf (st : SymTab) : Expr → Int
  | .idn _ s => (st.syms s).ival
  | .intlit _ v => v
  | _ => 0

/-- Real value extraction in the real/real branch of `fold_constants`. -/
def realValOf (st : SymTab) : Expr → Rat
  | .idn _ s => (st.syms s).rval
  | .reallit _ v => v
  | _ => 0

/-- The replacement decision of `ast_optimizer::fold_constants` once both
children are fully folded: if both are constant and both typed `integer`,
evaluate with C++ `long` semantics (`&&`/`||` produce 0/1, `/` is
truncating division, `%` its remainder); if both are constant and both
typed `real`, evaluate with `double` semantics; otherwise the node stands
with its (folded) children.  `AST_DIVIDE` falls through the integer switch
and `AST_IDIV`/`AST_MOD` fall through the real switch to the `default:
return node` arm. -/
def foldBinop (st : SymTab) (ty : SymIdx) (op : BinOp) (l r : Expr) : Expr :=
  if isConst st l && isConst st r then
    if l.tyOf == integer_type && r.tyOf == integer_type then
      let lv := intValOf st l
      let rv := intValOf st r
      match op with
      | .add => mkInt (lv + rv)
      | .sub => mkInt (lv - rv)
      | .mult => mkInt (lv * rv)
      | .andOp => mkInt (if lv ≠ 0 ∧ rv ≠ 0 then 1 else 0)
      | .orOp => mkInt (if lv ≠ 0 ∨ rv ≠ 0 then 1 else 0)
      | .idiv => mkInt (lv.tdiv rv)
      | .modOp => mkInt (lv.tmod rv)
      | .divide => .binop ty op l r
    else if l.tyOf == real_type && r.tyOf == real_type then
      let lv := realValOf st l
      let rv := realValOf st r
      match op with
      | .add => mkReal (lv + rv)
      | .sub => mkReal (lv - rv)
      | .mult => mkReal (lv * rv)
      | .andOp => mkReal (if lv ≠ 0 ∧ rv ≠ 0 then 1 else 0)
      | .orOp => mkReal (if lv ≠ 0 ∨ rv ≠ 0 then 1 else 0)
      | .divide => mkReal (lv / rv)
      | .idiv => .binop ty op l r
      | .modOp => .binop ty op l r
    else .binop ty op l r
  else .binop ty op l r

/-- `foldBinop` returns either a literal of size 1 or the node itself. -/
theorem foldBinop_size (st : SymTab) (ty : SymIdx) (op : BinOp) (l r : Expr) :
    esize (foldBinop st ty op l r) ≤ 1 + esize l + esize r := by
  unfold foldBinop
  split
  · split
    · cases op <;> simp [mkInt, esize] <;> omega
    · split
      · cases op <;> simp [mkReal, esize] <;> omega
      · simp [esize]
  · simp [esize]

mutual
/-- `ast_optimizer::fold_constants`, together with the certificate that the
result is no larger than the input (needed because the C++ first lets the
node's own `optimize()` fold both children and then folds the already
replaced children a second time).  Non-binop cases are the node's virtual
`optimize()` followed by the `return node` path: identifiers, literals and
casts are untouched (`ast_cast::optimize` is an empty stub), `ast_indexed`
folds its index, `ast_uminus`/`ast_not` fold their operand, the relations
fold both operands, and a call folds its argument list element-wise. -/
def foldC (st : SymTab) : (e : Expr) → {r : Expr // esize r ≤ esize e}
  | .idn ty s => ⟨.idn ty s, Nat.le_refl _⟩
  | .intlit ty v => ⟨.intlit ty v, Nat.le_refl _⟩
  | .reallit ty v => ⟨.reallit ty v, Nat.le_refl _⟩
  | .cast ty e => ⟨.cast ty e, Nat.le_refl _⟩
  | .uminus ty e =>
      ⟨.uminus ty (foldC st e).val, by
        have h := (foldC st e).property; simp [esize]; omega⟩
  | .notOp ty e =>
      ⟨.notOp ty (foldC st e).val, by
        have h := (foldC st e).property; simp [esize]; omega⟩
  | .indexed ty idTy idSym ix =>
      ⟨.indexed ty idTy idSym (foldC st ix).val, by
        have h := (foldC st ix).property; simp [esize]; omega⟩
  | .binrel ty op l r =>
      ⟨.binrel ty op (foldC st l).val (foldC st r).val, by
        have h1 := (foldC st l).property
        have h2 := (foldC st r).property
        simp [esize]; omega⟩
  | .funccall ty f args =>
      ⟨.funccall ty f (foldL st args).val, by
        have h := (foldL st args).property; simp [esize]; omega⟩
  | .binop ty op l r =>
      match foldC st l, foldC st r with
      | ⟨l1, hl1⟩, ⟨r1, hr1⟩ =>
        match foldC st l1, foldC st r1 with
        | ⟨l2, hl2⟩, ⟨r2, hr2⟩ =>
          ⟨foldBinop st ty op l2 r2, by
            have h5 := foldBinop_size st ty op l2 r2
            simp [esize] at *
            omega⟩
  termination_by e => esize e
  decreasing_by
    all_goals simp [esize] at *
    all_goals omega

/-- `ast_expr_list::optimize`: recurse on `preceding`, then replace
`last_expr` by its folding. -/
def foldL (st : SymTab) : (l : ExprList) → {r : ExprList // lsize r ≤ lsize l}
  | .enil => ⟨.enil, Nat.le_refl _⟩
  | .elist pre last =>
      ⟨.elist (foldL st pre).val (foldC st last).val, by
        have h1 := (foldL st pre).property
        have h2 := (foldC st last).property
        simp [lsize]; omega⟩
  termination_by l => lsize l
  decreasing_by
    all_goals simp [esize, lsize]
    all_goals omega
end

/-- The folder on expressions, as called everywhere in `optimize.cc`. -/
def fold_constants (st : SymTab) (e : Expr) : Expr := (foldC st e).val

/-- The folder on expression lists. -/
def foldExprList (st : SymTab) (l : ExprList) : ExprList := (foldL st l).val

mutual
/-- Statement nodes (`ast_statement` subclasses appearing in the two
passes).  A nullable statement-list child uses `StmtList.snil` for the C++
NULL pointer. -/
inductive Stmt where
  | assign (lhs rhs : Expr)
  | procCall (psym : Nat) (args : ExprList)
  | whileS (cond : Expr) (body : StmtList)
  | ifS (cond : Expr) (body : StmtList) (elsifs : ElsifList)
      (elseBody : StmtList)
  | ret (value : Option Expr)

/-- `ast_stmt_list`: `preceding` chain plus `last_stmt`; `snil` is NULL. -/
inductive StmtList where
  | snil
  | slist (preceding : StmtList) (last : Stmt)

/-- `ast_elsif_list` with its `ast_elsif` element (condition, body) inlined
into the list node; `lnil` is NULL. -/
inductive ElsifList where
  | lnil
  | llist (preceding : ElsifList) (cond : Expr) (body : StmtList)
end

deriving instance DecidableEq for Stmt, StmtList, ElsifList

mutual
/-- The statement-level `optimize()` methods: `ast_assign` folds its right
side only, `ast_procedurecall` folds its argument list, `ast_while` and
`ast_if` fold their conditions and recurse, `ast_return` folds its value if
present. -/
def optStmt (st : SymTab) : Stmt → Stmt
  | .assign lhs rhs => .assign lhs (fold_constants st rhs)
  | .procCall p args => .procCall p (foldExprList st args)
  | .whileS c b => .whileS (fold_constants st c) (optStmtList st b)
  | .ifS c b el eb =>
      .ifS (fold_constants st c) (optStmtList st b) (optElsifList st el)
        (optStmtList st eb)
  | .ret none => .ret none
  | .ret (some v) => .ret (some (fold_constants st v))

/-- `ast_stmt_list::optimize`. -/
def optStmtList (st : SymTab) : StmtList → StmtList
  | .snil => .snil
  | .slist pre last => .slist (optStmtList st pre) (optStmt st last)

/-- `ast_elsif_list::optimize` together with `ast_elsif::optimize`. -/
def optElsifList (st : SymTab) : ElsifList → ElsifList
  | .lnil => .lnil
  | .llist pre c b =>
      .llist (optElsifList st pre) (fold_constants st c) (optStmtList st b)
end

/-- `ast_optimizer::do_optimize`: the driver entry point of the folding
pass over one body. -/
def doOptimize (st : SymTab) (body : StmtList) : StmtList :=
  optStmtList st body

/-- Result of type checking one expression: the rewritten node, the
returned `sym_index`, and the diagnostics emitted (in order). -/
structure ERes where
  e : Expr
  rty : SymIdx
  ds : List Diag
deriving DecidableEq

/-- Result of type checking an expression list. -/
structure LRes where
  l : ExprList
  ds : List Diag
deriving DecidableEq

/-- `semantic::chk_param`: compare formals and actuals trailing-to-leading,
recursing on the `preceding` chains first; on an aligned pair whose types
differ, wrap the actual in a cast if the formal is `real`, otherwise fail.
The C++ mutates `actuals->last_expr` in place and reports nothing; the
model returns the success flag together with the possibly rewritten actual
list (mutations made before an early `return false` persist). -/
def chkParam : List SymIdx → ExprList → Bool × ExprList
  | [], .enil => (true, .enil)
  | [], .elist pre last => (false, .elist pre last)
  | _ :: _, .enil => (false, .enil)
  | f :: fs, .elist pre last =>
      let res := chkParam fs pre
      if !res.1 then (false, .elist res.2 last)
      else if last.tyOf ≠ f then
        if f = real_type then (true, .elist res.2 (mkCast last))
        else (false, .elist res.2 last)
      else (true, .elist res.2 last)

/-- The operator name string passed to `semantic::check_binop2`. -/
def binop2Name : BinOp → String
  | .andOp => "AND"
  | .orOp => "OR"
  | .idiv => "DIV"
  | .modOp => "MOD"
  | _ => ""

mutual
/-- `type_check()` on expressions.  Each arm mirrors the corresponding
method in `semantic.cc`; the node's `type` field is written exactly where
the C++ assigns it (`ast_or::type_check`, `ast_uminus::type_check` and
`ast_not::type_check` return a type without assigning the field). -/
def checkExpr (st : SymTab) : Expr → ERes
  | .idn ty s =>
      if (st.syms s).tag ≠ SymKind.nametype then ⟨.idn ty s, ty, []⟩
      else ⟨.idn ty s, s, []⟩
  | .intlit ty v => ⟨.intlit ty v, integer_type, []⟩
  | .reallit ty v => ⟨.reallit ty v, real_type, []⟩
  | .cast ty e =>
      -- no `ast_cast::type_check` override exists in `semantic.cc`; the
      -- virtual dispatch lands in `ast_expression::type_check`, which
      -- calls `fatal` (modelled as a diagnostic) and returns `void_type`.
      -- The checker never visits the casts it synthesizes, so this arm is
      -- unreachable on parser-produced trees.
      ⟨.cast ty e, void_type, [.fatalAbstract]⟩
  | .uminus ty e =>
      -- ast_uminus::type_check: `return expr->type_check();`
      let r := checkExpr st e
      ⟨.uminus ty r.e, r.rty, r.ds⟩
  | .notOp ty e =>
      -- ast_not::type_check
      let r := checkExpr st e
      if r.rty ≠ integer_type then
        ⟨.notOp ty r.e, void_type, r.ds ++ [.notOperandNotInteger]⟩
      else ⟨.notOp ty r.e, integer_type, r.ds⟩
  | .binop ty op l r =>
      let lr := checkExpr st l
      let rr := checkExpr st r
      match op with
      | .add | .sub | .mult =>
          -- semantic::check_binop1, result assigned to the type field
          if lr.rty ≠ rr.rty then
            ⟨.binop real_type op
                (if lr.rty ≠ real_type then mkCast lr.e else lr.e)
                (if rr.rty ≠ real_type then mkCast rr.e else rr.e),
              real_type, lr.ds ++ rr.ds⟩
          else ⟨.binop lr.rty op lr.e rr.e, lr.rty, lr.ds ++ rr.ds⟩
      | .divide =>
          -- ast_divide::type_check: always real; integer operands cast
          ⟨.binop real_type .divide
              (if lr.rty = integer_type then mkCast lr.e else lr.e)
              (if rr.rty = integer_type then mkCast rr.e else rr.e),
            real_type, lr.ds ++ rr.ds⟩
      | .orOp =>
          -- ast_or::type_check returns check_binop2's result WITHOUT
          -- assigning the node's type field
          ⟨.binop ty .orOp lr.e rr.e, integer_type,
            lr.ds ++ rr.ds ++
              (if rr.rty ≠ integer_type then [.rightNotInt "OR"] else []) ++
              (if lr.rty ≠ integer_type then [.leftNotInt "OR"] else [])⟩
      | .andOp | .idiv | .modOp =>
          -- check_binop2 via ast_and/ast_idiv/ast_mod, field assigned
          ⟨.binop integer_type op lr.e rr.e, integer_type,
            lr.ds ++ rr.ds ++
              (if rr.rty ≠ integer_type then [.rightNotInt (binop2Name op)]
               else []) ++
              (if lr.rty ≠ integer_type then [.leftNotInt (binop2Name op)]
               else [])⟩
  | .binrel _ op l r =>
      -- semantic::check_binrel, result assigned to the type field
      -- (overwriting the prior field value)
      let lr := checkExpr st l
      let rr := checkExpr st r
      if lr.rty ≠ rr.rty then
        ⟨.binrel integer_type op
            (if lr.rty ≠ real_type then mkCast lr.e else lr.e)
            (if rr.rty ≠ real_type then mkCast rr.e else rr.e),
          integer_type, lr.ds ++ rr.ds⟩
      else ⟨.binrel integer_type op lr.e rr.e, integer_type, lr.ds ++ rr.ds⟩
  | .indexed _ idTy idSym ix =>
      -- ast_indexed::type_check, result assigned to the type field
      let ir := checkExpr st ix
      ⟨.indexed (if (st.syms idSym).tag ≠ SymKind.nametype then idTy
            else idSym) idTy idSym ir.e,
        (if (st.syms idSym).tag ≠ SymKind.nametype then idTy else idSym),
        ir.ds ++ (if ir.rty ≠ integer_type then [.indexNotInteger] else [])⟩
  | .funccall ty f args =>
      -- ast_functioncall::type_check: semantic::check_parameters (here
      -- inlined: type check the actuals, resolve the callee's formals by
      -- symbol kind -- any other kind is `fatal` -- then run chk_param,
      -- discarding its boolean result), then return the (constructor-set)
      -- type field without writing it
      let pr := checkExprList st args
      if (st.syms f).tag = SymKind.func ∨ (st.syms f).tag = SymKind.proc
      then ⟨.funccall ty f (chkParam (st.syms f).formals pr.l).2, ty, pr.ds⟩
      else ⟨.funccall ty f pr.l, ty, pr.ds ++ [.fatalUnknownSym]⟩
  termination_by structural e => e

/-- `ast_expr_list::type_check`. -/
def checkExprList (st : SymTab) : ExprList → LRes
  | .enil => ⟨.enil, []⟩
  | .elist pre last =>
      let p := checkExprList st pre
      let l := checkExpr st last
      ⟨.elist p.l l.e, p.ds ++ l.ds⟩
  termination_by structural l => l
end

/-- `semantic::check_parameters`: type check the actuals, resolve the
callee's formal list by symbol kind (any other kind is `fatal`), then run
`chk_param`, discarding its boolean result.  (The same code is inlined in
the `funccall` arm of `checkExpr` and the `procCall` arm of `checkStmt`.) -/
def checkParameters (st : SymTab) (callSym : Nat) (params : ExprList) :
    LRes :=
  let pr := checkExprList st params
  let s := st.syms callSym
  if s.tag = SymKind.func ∨ s.tag = SymKind.proc then
    ⟨(chkParam s.formals pr.l).2, pr.ds⟩
  else ⟨pr.l, pr.ds ++ [.fatalUnknownSym]⟩

/-- Result of type checking a statement: the rewritten statement, the
diagnostics, and whether a `return` node was visited (the contribution this
subtree makes to the file-global `has_return` flag, which is only ever set,
never cleared, during a body's walk). -/
structure SRes where
  s : Stmt
  ds : List Diag
  hr : Bool
deriving DecidableEq

/-- Result of type checking a statement list. -/
structure SLRes where
  sl : StmtList
  ds : List Diag
  hr : Bool
deriving DecidableEq

/-- Result of type checking an elsif list. -/
structure ELRes where
  el : ElsifList
  ds : List Diag
  hr : Bool
deriving DecidableEq

mutual
/-- `type_check()` on statements. -/
def checkStmt (st : SymTab) : Stmt → SRes
  | .assign lhs rhs =>
      -- ast_assign::type_check
      let lr := checkExpr st lhs
      let rr := checkExpr st rhs
      ⟨.assign lr.e
          (if lr.rty = real_type ∧ rr.rty = integer_type then mkCast rr.e
           else rr.e),
        lr.ds ++ rr.ds ++
          (if lr.rty = integer_type ∧ rr.rty = real_type
           then [.assignRealToInt] else []),
        false⟩
  | .procCall p args =>
      -- ast_procedurecall::type_check
      let pr := checkParameters st p args
      ⟨.procCall p pr.l, pr.ds, false⟩
  | .whileS c b =>
      -- ast_while::type_check
      let cr := checkExpr st c
      let br := checkStmtList st b
      ⟨.whileS cr.e br.sl,
        cr.ds ++ (if cr.rty ≠ integer_type then [.whileCondNotInteger]
          else []) ++ br.ds,
        br.hr⟩
  | .ifS c b el eb =>
      -- ast_if::type_check (the body is checked even when the condition
      -- fails the integer test)
      let cr := checkExpr st c
      let br := checkStmtList st b
      let er := checkElsifList st el
      let ebr := checkStmtList st eb
      ⟨.ifS cr.e br.sl er.el ebr.sl,
        cr.ds ++ (if cr.rty ≠ integer_type then [.ifCondNotInteger]
          else []) ++ br.ds ++ er.ds ++ ebr.ds,
        br.hr || er.hr || ebr.hr⟩
  | .ret none =>
      -- ast_return::type_check, value-less branch
      ⟨.ret none,
        (if (st.syms st.curEnv).tag ≠ SymKind.proc
         then [.returnValueFromFunction] else []),
        true⟩
  | .ret (some v) =>
      -- ast_return::type_check with a value
      let vr := checkExpr st v
      if (st.syms st.curEnv).tag ≠ SymKind.func then
        ⟨.ret (some vr.e), vr.ds ++ [.procMayNotReturn], true⟩
      else
        ⟨.ret (some vr.e),
          vr.ds ++ (if (st.syms st.curEnv).ty ≠ vr.rty then [.badReturnType]
            else []),
          true⟩

/-- `ast_stmt_list::type_check`. -/
def checkStmtList (st : SymTab) : StmtList → SLRes
  | .snil => ⟨.snil, [], false⟩
  | .slist pre last =>
      let p := checkStmtList st pre
      let l := checkStmt st last
      ⟨.slist p.sl l.s, p.ds ++ l.ds, p.hr || l.hr⟩

/-- `ast_elsif_list::type_check` with `ast_elsif::type_check`: a
non-integer elsif condition reports an error and returns BEFORE the elsif
body is checked, so that body is skipped entirely. -/
def checkElsifList (st : SymTab) : ElsifList → ELRes
  | .lnil => ⟨.lnil, [], false⟩
  | .llist pre c b =>
      let p := checkElsifList st pre
      let cr := checkExpr st c
      if cr.rty ≠ integer_type then
        ⟨.llist p.el cr.e b, p.ds ++ cr.ds ++ [.elsifCondNotInteger], p.hr⟩
      else
        let br := checkStmtList st b
        ⟨.llist p.el cr.e br.sl, p.ds ++ cr.ds ++ br.ds, p.hr || br.hr⟩
end

/-- Result of `semantic::do_typecheck` over one body. -/
structure TCRes where
  body : StmtList
  ds : List Diag
deriving DecidableEq

/-- `semantic::do_typecheck`: reset `has_return`, walk the body, and if the
enclosing symbol is a function whose walk never visited a `return`, report
"A function must return a value." exactly once. -/
def doTypecheck (st : SymTab) (env : Nat) (body : StmtList) : TCRes :=
  let r := checkStmtList st body
  ⟨r.sl,
    r.ds ++ (if (st.syms env).tag = SymKind.func ∧ r.hr = false
      then [.mustReturnValue] else [])⟩

/-- True exactly on literal nodes (the node kinds the folder synthesizes as
replacements). -/
def isLit : Expr → Bool
  | .intlit _ _ => true
  | .reallit _ _ => true
  | _ => false

/-- A numeric code for the dynamic class of an expression node (its `tag`
in the C++), separating the concrete subclasses the way the AST tag enum
does. -/
def tagOf : Expr → Nat
  | .idn _ _ => 0
  | .intlit _ _ => 1
  | .reallit _ _ => 2
  | .cast _ _ => 3
  | .uminus _ _ => 4
  | .notOp _ _ => 5
  | .binrel _ .eq _ _ => 6
  | .binrel _ .neq _ _ => 7
  | .binrel _ .lt _ _ => 8
  | .binrel _ .gt _ _ => 9
  | .indexed _ _ _ _ => 10
  | .funccall _ _ _ => 11
  | .binop _ .add _ _ => 12
  | .binop _ .sub _ _ => 13
  | .binop _ .mult _ _ => 14
  | .binop _ .divide _ _ => 15
  | .binop _ .andOp _ _ => 16
  | .binop _ .orOp _ _ => 17
  | .binop _ .idiv _ _ => 18
  | .binop _ .modOp _ _ => 19

/-- Left operand of a binary operation/relation node (the node itself
otherwise). -/
def Expr.leftChild : Expr → Expr
  | .binop _ _ l _ => l
  | .binrel _ _ l _ => l
  | e => e

/-- Right operand of a binary operation/relation node (the node itself
otherwise). -/
def Expr.rightChild : Expr → Expr
  | .binop _ _ _ r => r
  | .binrel _ _ _ r => r
  | e => e

/-- Number of elements of an `ast_expr_list` chain. -/
def lengthE : ExprList → Nat
  | .enil => 0
  | .elist pre _ => 1 + lengthE pre

/-- Number of formals of a `parameter_symbol` chain (modelled as a Lean
list). -/
def lengthF (l : List SymIdx) : Nat := l.length

/-- How many times the "A function must return a value." diagnostic occurs
in a diagnostic list. -/
def countMustRet (ds : List Diag) : Nat := ds.count Diag.mustReturnValue

mutual
/-- Purely syntactic presence of a `return` statement anywhere in a
statement tree (regardless of whether the checker's walk reaches it). -/
def hasRetSynS : Stmt → Bool
  | .assign _ _ => false
  | .procCall _ _ => false
  | .whileS _ b => hasRetSynL b
  | .ifS _ b el eb => hasRetSynL b || hasRetSynE el || hasRetSynL eb
  | .ret _ => true

def hasRetSynL : StmtList → Bool
  | .snil => false
  | .slist pre last => hasRetSynL pre || hasRetSynS last

def hasRetSynE : ElsifList → Bool
  | .lnil => false
  | .llist pre _ b => hasRetSynE pre || hasRetSynL b
end

mutual
/-- Specification-side description of which `return` statements the
checker's walk visits: all of them, except that the body of an elsif whose
condition does not resolve to `integer` is skipped (compare
`ast_elsif::type_check`, which returns before checking its body). -/
def visitedRetS (st : SymTab) : Stmt → Bool
  | .assign _ _ => false
  | .procCall _ _ => false
  | .whileS _ b => visitedRetL st b
  | .ifS _ b el eb =>
      visitedRetL st b || visitedRetE st el || visitedRetL st eb
  | .ret _ => true

def visitedRetL (st : SymTab) : StmtList → Bool
  | .snil => false
  | .slist pre last => visitedRetL st pre || visitedRetS st last

def visitedRetE (st : SymTab) : ElsifList → Bool
  | .lnil => false
  | .llist pre c b =>
      visitedRetE st pre ||
        (if (checkExpr st c).rty = integer_type then visitedRetL st b
         else false)
end

mutual
/-- Node count of a statement (induction measure for the statement-level
proofs). -/
def ssize : Stmt → Nat
  | .assign _ _ => 1
  | .procCall _ _ => 1
  | .whileS _ b => 1 + slsize b
  | .ifS _ b el eb => 1 + slsize b + elsize el + slsize eb
  | .ret _ => 1

def slsize : StmtList → Nat
  | .snil => 0
  | .slist pre last => 1 + slsize pre + ssize last

def elsize : ElsifList → Nat
  | .lnil => 0
  | .llist pre _ b => 1 + elsize pre + slsize b
end

/-- A small concrete symbol table used by the closed counterexamples and
witnesses: symbol 1 an integer variable, symbol 2 a variable of the
user-declared named type 5, symbol 3 an integer constant of value 7,
symbol 4 a function returning integer with formal types `[real, 5]` (head =
last parameter), symbol 5 the named type itself, symbol 6 a parameterless
procedure, symbol 7 a real constant of value 5/2. -/
def sampleSyms : Nat → SymbolEntry := fun n =>
  if n = 1 then ⟨.var, integer_type, 0, 0, []⟩
  else if n = 2 then ⟨.var, 5, 0, 0, []⟩
  else if n = 3 then ⟨.const, integer_type, 7, 0, []⟩
  else if n = 4 then ⟨.func, integer_type, 0, 0, [real_type, 5]⟩
  else if n = 5 then ⟨.nametype, void_type, 0, 0, []⟩
  else if n = 6 then ⟨.proc, void_type, 0, 0, []⟩
  else if n = 7 then ⟨.const, real_type, 0, (5 : Rat) / 2, []⟩
  else ⟨.var, integer_type, 0, 0, []⟩

/-- The sample table with the current environment set to the function
symbol 4 (as when its body is being checked). -/
def stF : SymTab := ⟨sampleSyms, 4⟩

/-- Specification-side synthesis of an expression's resolved type,
following the type rules of spec section 4.1 rule for rule (identifier:
its own handle for a named type, else the declared type; literals: the
built-in types; cast: the type it carries; unary minus: the operand's
type; NOT: integer on an integer operand, void otherwise; add/sub/mult:
the common type, or real when the operand types differ; divide: always
real; AND/OR/DIV/MOD: integer; relations: integer; indexed access: the
indexed identifier's resolved type; call: the declared return type).  This
is the claim-side description of "the type the Type Checker gives a node";
`check_resolved_aux` proves it equal to `checkExpr`'s returned type on
cast-free trees. -/
def resolvedTy (st : SymTab) : Expr → SymIdx
  | .idn ty s => if (st.syms s).tag ≠ SymKind.nametype then ty else s
  | .intlit _ _ => integer_type
  | .reallit _ _ => real_type
  | .cast ty _ => ty
  | .uminus _ e => resolvedTy st e
  | .notOp _ e =>
      if resolvedTy st e = integer_type then integer_type else void_type
  | .binop _ op l r =>
      match op with
      | .add | .sub | .mult =>
          if resolvedTy st l = resolvedTy st r then resolvedTy st l
          else real_type
      | .divide => real_type
      | _ => integer_type
  | .binrel _ _ _ _ => integer_type
  | .indexed _ idTy idSym _ =>
      if (st.syms idSym).tag ≠ SymKind.nametype then idTy else idSym
  | .funccall ty _ _ => ty

mutual
/-- Every literal node carries its constructor-set type (the `ast_integer`
and `ast_real` constructors always set `integer_type`/`real_type` — spec
modelled); true of every tree the parser or the two passes produce, and
preserved by folding. -/
def litsTypedE : Expr → Bool
  | .idn _ _ => true
  | .intlit ty _ => ty == integer_type
  | .reallit ty _ => ty == real_type
  | .cast _ e => litsTypedE e
  | .uminus _ e => litsTypedE e
  | .notOp _ e => litsTypedE e
  | .binop _ _ l r => litsTypedE l && litsTypedE r
  | .binrel _ _ l r => litsTypedE l && litsTypedE r
  | .indexed _ _ _ ix => litsTypedE ix
  | .funccall _ _ args => litsTypedL args
  termination_by structural e => e

def litsTypedL : ExprList → Bool
  | .enil => true
  | .elist pre last => litsTypedL pre && litsTypedE last
  termination_by structural l => l
end

mutual
/-- No cast node occurs in the tree: true of every parser-produced
expression, since casts are synthesized only by the Type Checker. -/
def noCastsE : Expr → Bool
  | .idn _ _ => true
  | .intlit _ _ => true
  | .reallit _ _ => true
  | .cast _ _ => false
  | .uminus _ e => noCastsE e
  | .notOp _ e => noCastsE e
  | .binop _ _ l r => noCastsE l && noCastsE r
  | .binrel _ _ l r => noCastsE l && noCastsE r
  | .indexed _ _ _ ix => noCastsE ix
  | .funccall _ _ args => noCastsL args
  termination_by structural e => e

def noCastsL : ExprList → Bool
  | .enil => true
  | .elist pre last => noCastsL pre && noCastsE last
  termination_by structural l => l
end

mutual
/-- No cast node occurs in any expression of the statement tree (parser
bodies). -/
def noCastsS : Stmt → Bool
  | .assign lhs rhs => noCastsE lhs && noCastsE rhs
  | .procCall _ args => noCastsL args
  | .whileS c b => noCastsE c && noCastsSL b
  | .ifS c b el eb =>
      noCastsE c && noCastsSL b && noCastsEL el && noCastsSL eb
  | .ret none => true
  | .ret (some v) => noCastsE v
  termination_by structural s => s

def noCastsSL : StmtList → Bool
  | .snil => true
  | .slist pre last => noCastsSL pre && noCastsS last
  termination_by structural sl => sl

def noCastsEL : ElsifList → Bool
  | .lnil => true
  | .llist pre c b => noCastsEL pre && noCastsE c && noCastsSL b
  termination_by structural el => el
end

mutual
/-- The resolved-type fields of a checked expression are written: every
node whose `type_check` assigns the field — the binary operations except
OR, the relations, and indexed accesses — carries exactly the type the
checker computes for it (`resolvedTy`), and every cast (all synthesized)
carries `real`.  OR, unary-minus, NOT, identifier, literal and call nodes
carry no constraint of their own (the first three are left unwritten, the
rest are constructor-set). -/
def fieldsWrittenE (st : SymTab) : Expr → Bool
  | .idn _ _ => true
  | .intlit _ _ => true
  | .reallit _ _ => true
  | .cast ty e => (ty == real_type) && fieldsWrittenE st e
  | .uminus _ e => fieldsWrittenE st e
  | .notOp _ e => fieldsWrittenE st e
  | .binop ty op l r =>
      ((op == BinOp.orOp) || (ty == resolvedTy st (.binop ty op l r))) &&
        fieldsWrittenE st l && fieldsWrittenE st r
  | .binrel ty op l r =>
      (ty == resolvedTy st (.binrel ty op l r)) && fieldsWrittenE st l &&
        fieldsWrittenE st r
  | .indexed ty idTy idSym ix =>
      (ty == resolvedTy st (.indexed ty idTy idSym ix)) &&
        fieldsWrittenE st ix
  | .funccall _ _ args => fieldsWrittenL st args
  termination_by structural e => e

def fieldsWrittenL (st : SymTab) : ExprList → Bool
  | .enil => true
  | .elist pre last => fieldsWrittenL st pre && fieldsWrittenE st last
  termination_by structural l => l
end

mutual
/-- `fieldsWrittenE` for every expression the checker's walk visits in a
statement tree; the body of an elsif whose condition does not resolve to
`integer` is exempt, because `ast_elsif::type_check` returns before
checking it. -/
def fieldsWrittenS (st : SymTab) : Stmt → Bool
  | .assign lhs rhs => fieldsWrittenE st lhs && fieldsWrittenE st rhs
  | .procCall _ args => fieldsWrittenL st args
  | .whileS c b => fieldsWrittenE st c && fieldsWrittenSL st b
  | .ifS c b el eb =>
      fieldsWrittenE st c && fieldsWrittenSL st b &&
        fieldsWrittenEL st el && fieldsWrittenSL st eb
  | .ret none => true
  | .ret (some v) => fieldsWrittenE st v
  termination_by structural s => s

def fieldsWrittenSL (st : SymTab) : StmtList → Bool
  | .snil => true
  | .slist pre last => fieldsWrittenSL st pre && fieldsWrittenS st last
  termination_by structural sl => sl

def fieldsWrittenEL (st : SymTab) : ElsifList → Bool
  | .lnil => true
  | .llist pre c b =>
      fieldsWrittenEL st pre && fieldsWrittenE st c &&
        (if resolvedTy st c = integer_type then fieldsWrittenSL st b
         else true)
  termination_by structural el => el
end

mutual
/-- No folding step in the tree takes the AND/OR-over-real-constants
branch of `fold_constants` (the branch that replaces an integer-resolved
AND/OR node by a real literal).  The condition mirrors the folder exactly:
for a binary operation it looks at the twice-folded children the folder
itself inspects. -/
def noBRF (st : SymTab) : Expr → Bool
  | .idn _ _ => true
  | .intlit _ _ => true
  | .reallit _ _ => true
  | .cast _ _ => true
  | .uminus _ e => noBRF st e
  | .notOp _ e => noBRF st e
  | .binop _ op l r =>
      noBRF st l && noBRF st r &&
        !(((op == BinOp.andOp) || (op == BinOp.orOp)) &&
          isConst st (fold_constants st (fold_constants st l)) &&
          isConst st (fold_constants st (fold_constants st r)) &&
          ((fold_constants st (fold_constants st l)).tyOf == real_type) &&
          ((fold_constants st (fold_constants st r)).tyOf == real_type))
  | .binrel _ _ l r => noBRF st l && noBRF st r
  | .indexed _ _ _ ix => noBRF st ix
  | .funccall _ _ args => noBRFL st args
  termination_by structural e => e

def noBRFL (st : SymTab) : ExprList → Bool
  | .enil => true
  | .elist pre last => noBRFL st pre && noBRF st last
  termination_by structural l => l
end

/-! ## Equational lemmas for the folder

`foldC`/`foldL` are defined by well-founded recursion (the C++ folds a
binop's children twice), so their equations are exposed here at the
`fold_constants`/`foldExprList` level for use by `simp`. -/

theorem fc_idn (st : SymTab) (ty : SymIdx) (s : Nat) :
    fold_constants st (.idn ty s) = .idn ty s := by
  simp [fold_constants, foldC]

theorem fc_intlit (st : SymTab) (ty : SymIdx) (v : Int) :
    fold_constants st (.intlit ty v) = .intlit ty v := by
  simp [fold_constants, foldC]

theorem fc_reallit (st : SymTab) (ty : SymIdx) (v : Rat) :
    fold_constants st (.reallit ty v) = .reallit ty v := by
  simp [fold_constants, foldC]

theorem fc_cast (st : SymTab) (ty : SymIdx) (e : Expr) :
    fold_constants st (.cast ty e) = .cast ty e := by
  simp [fold_constants, foldC]

theorem fc_uminus (st : SymTab) (ty : SymIdx) (e : Expr) :
    fold_constants st (.uminus ty e) = .uminus ty (fold_constants st e) := by
  show (foldC st _).val = _
  rw [foldC]
  rfl

theorem fc_notOp (st : SymTab) (ty : SymIdx) (e : Expr) :
    fold_constants st (.notOp ty e) = .notOp ty (fold_constants st e) := by
  show (foldC st _).val = _
  rw [foldC]
  rfl

theorem fc_indexed (st : SymTab) (ty idTy : SymIdx) (idSym : Nat)
    (ix : Expr) :
    fold_constants st (.indexed ty idTy idSym ix) =
      .indexed ty idTy idSym (fold_constants st ix) := by
  show (foldC st _).val = _
  rw [foldC]
  rfl

theorem fc_binrel (st : SymTab) (ty : SymIdx) (op : RelOp) (l r : Expr) :
    fold_constants st (.binrel ty op l r) =
      .binrel ty op (fold_constants st l) (fold_constants st r) := by
  show (foldC st _).val = _
  rw [foldC]
  rfl

theorem fc_funccall (st : SymTab) (ty : SymIdx) (f : Nat) (args : ExprList) :
    fold_constants st (.funccall ty f args) =
      .funccall ty f (foldExprList st args) := by
  show (foldC st _).val = _
  rw [foldC]
  rfl

theorem fc_binop (st : SymTab) (ty : SymIdx) (op : BinOp) (l r : Expr) :
    fold_constants st (.binop ty op l r) =
      foldBinop st ty op (fold_constants st (fold_constants st l))
        (fold_constants st (fold_constants st r)) := by
  show (foldC st _).val = _
  rw [foldC]
  rfl

theorem fel_enil (st : SymTab) : foldExprList st .enil = .enil := by
  simp [foldExprList, foldL]

theorem fel_elist (st : SymTab) (pre : ExprList) (last : Expr) :
    foldExprList st (.elist pre last) =
      .elist (foldExprList st pre) (fold_constants st last) := by
  show (foldL st _).val = _
  rw [foldL]
  rfl

/-- Folding never grows a tree. -/
theorem fc_size (st : SymTab) (e : Expr) :
    esize (fold_constants st e) ≤ esize e :=
  (foldC st e).property

/-- `foldBinop` either replaces the node by a literal or returns the node
itself (with the given children). -/
theorem foldBinop_cases (st : SymTab) (ty : SymIdx) (op : BinOp)
    (l r : Expr) :
    isLit (foldBinop st ty op l r) = true ∨
      foldBinop st ty op l r = .binop ty op l r := by
  unfold foldBinop
  split
  · split
    · cases op <;> simp [mkInt, isLit]
    · split
      · cases op <;> simp [mkReal, isLit]
      · simp
  · simp

/-- Literal nodes are fixed points of the folder. -/
theorem fc_fix_of_isLit (st : SymTab) (e : Expr) (h : isLit e = true) :
    fold_constants st e = e := by
  cases e <;> simp_all [isLit, fc_intlit, fc_reallit]

/-- Strong-induction core of folding idempotence, for expressions and
expression lists simultaneously. -/
theorem fc_idem_aux (st : SymTab) :
    ∀ n : Nat, (∀ e : Expr, esize e ≤ n →
        fold_constants st (fold_constants st e) = fold_constants st e) ∧
      (∀ l : ExprList, lsize l ≤ n →
        foldExprList st (foldExprList st l) = foldExprList st l) := by
  intro n
  induction n using Nat.strong_induction_on with
  | _ n ih =>
    constructor
    · intro e he
      match e with
      | .idn ty s => simp [fc_idn]
      | .intlit ty v => simp [fc_intlit]
      | .reallit ty v => simp [fc_reallit]
      | .cast ty e1 => simp [fc_cast]
      | .uminus ty e1 =>
          have h1 : esize e1 < n := by simp [esize] at he; omega
          have ih1 := (ih (esize e1) h1).1 e1 (Nat.le_refl _)
          simp [fc_uminus, ih1]
      | .notOp ty e1 =>
          have h1 : esize e1 < n := by simp [esize] at he; omega
          have ih1 := (ih (esize e1) h1).1 e1 (Nat.le_refl _)
          simp [fc_notOp, ih1]
      | .indexed ty idTy idSym ix =>
          have h1 : esize ix < n := by simp [esize] at he; omega
          have ih1 := (ih (esize ix) h1).1 ix (Nat.le_refl _)
          simp [fc_indexed, ih1]
      | .binrel ty op l r =>
          have h1 : esize l < n := by simp [esize] at he; omega
          have h2 : esize r < n := by simp [esize] at he; omega
          have ih1 := (ih (esize l) h1).1 l (Nat.le_refl _)
          have ih2 := (ih (esize r) h2).1 r (Nat.le_refl _)
          simp [fc_binrel, ih1, ih2]
      | .funccall ty f args =>
          have h1 : lsize args < n := by simp [esize] at he; omega
          have ih1 := (ih (lsize args) h1).2 args (Nat.le_refl _)
          simp [fc_funccall, ih1]
      | .binop ty op l r =>
          have h1 : esize l < n := by simp [esize] at he; omega
          have h2 : esize r < n := by simp [esize] at he; omega
          have ihl := (ih (esize l) h1).1 l (Nat.le_refl _)
          have ihr := (ih (esize r) h2).1 r (Nat.le_refl _)
          have hLL : fold_constants st (fold_constants st (fold_constants st l))
              = fold_constants st l := by rw [ihl, ihl]
          have hRR : fold_constants st (fold_constants st (fold_constants st r))
              = fold_constants st r := by rw [ihr, ihr]
          rcases foldBinop_cases st ty op
              (fold_constants st (fold_constants st l))
              (fold_constants st (fold_constants st r)) with hlit | heq
          · rw [fc_binop, fc_fix_of_isLit st _ hlit]
          · rw [fc_binop, heq, fc_binop, ihl, ihr, hLL, hRR]
            rw [ihl, ihr] at heq
            exact heq
    · intro l hl
      match l with
      | .enil => simp [fel_enil]
      | .elist pre last =>
          have h1 : lsize pre < n := by simp [lsize] at hl; omega
          have h2 : esize last < n := by simp [lsize] at hl; omega
          have ih1 := (ih (lsize pre) h1).2 pre (Nat.le_refl _)
          have ih2 := (ih (esize last) h2).1 last (Nat.le_refl _)
          simp [fel_elist, ih1, ih2]

/-- Folding an expression a second time changes nothing. -/
theorem fc_idem (st : SymTab) (e : Expr) :
    fold_constants st (fold_constants st e) = fold_constants st e :=
  (fc_idem_aux st (esize e)).1 e (Nat.le_refl _)

/-- Folding an expression list a second time changes nothing. -/
theorem fel_idem (st : SymTab) (l : ExprList) :
    foldExprList st (foldExprList st l) = foldExprList st l :=
  (fc_idem_aux st (lsize l)).2 l (Nat.le_refl _)

/-- Strong-induction core of statement-level idempotence of the
optimization pass. -/
theorem opt_idem_aux (st : SymTab) :
    ∀ n : Nat,
      (∀ s : Stmt, ssize s ≤ n → optStmt st (optStmt st s) = optStmt st s) ∧
      (∀ sl : StmtList, slsize sl ≤ n →
        optStmtList st (optStmtList st sl) = optStmtList st sl) ∧
      (∀ el : ElsifList, elsize el ≤ n →
        optElsifList st (optElsifList st el) = optElsifList st el) := by
  intro n
  induction n using Nat.strong_induction_on with
  | _ n ih =>
    refine ⟨?_, ?_, ?_⟩
    · intro s hs
      match s with
      | .assign lhs rhs => simp [optStmt, fc_idem]
      | .procCall p args => simp [optStmt, fel_idem]
      | .whileS c b =>
          have h1 : slsize b < n := by simp [ssize] at hs; omega
          have ih1 := (ih (slsize b) h1).2.1 b (Nat.le_refl _)
          simp [optStmt, fc_idem, ih1]
      | .ifS c b el eb =>
          have h1 : slsize b < n := by simp [ssize] at hs; omega
          have h2 : elsize el < n := by simp [ssize] at hs; omega
          have h3 : slsize eb < n := by simp [ssize] at hs; omega
          have ih1 := (ih (slsize b) h1).2.1 b (Nat.le_refl _)
          have ih2 := (ih (elsize el) h2).2.2 el (Nat.le_refl _)
          have ih3 := (ih (slsize eb) h3).2.1 eb (Nat.le_refl _)
          simp [optStmt, fc_idem, ih1, ih2, ih3]
      | .ret none => simp [optStmt]
      | .ret (some v) => simp [optStmt, fc_idem]
    · intro sl hsl
      match sl with
      | .snil => simp [optStmtList]
      | .slist pre last =>
          have h1 : slsize pre < n := by simp [slsize] at hsl; omega
          have h2 : ssize last < n := by simp [slsize] at hsl; omega
          have ih1 := (ih (slsize pre) h1).2.1 pre (Nat.le_refl _)
          have ih2 := (ih (ssize last) h2).1 last (Nat.le_refl _)
          simp [optStmtList, ih1, ih2]
    · intro el hel
      match el with
      | .lnil => simp [optElsifList]
      | .llist pre c b =>
          have h1 : elsize pre < n := by simp [elsize] at hel; omega
          have h2 : slsize b < n := by simp [elsize] at hel; omega
          have ih1 := (ih (elsize pre) h1).2.2 pre (Nat.le_refl _)
          have ih2 := (ih (slsize b) h2).2.1 b (Nat.le_refl _)
          simp [optElsifList, fc_idem, ih1, ih2]

/-- Membership in a conditional singleton diagnostic list. -/
theorem mem_ite_single (d a : Diag) (c : Prop) [Decidable c] :
    d ∈ (if c then [a] else ([] : List Diag)) ↔ c ∧ d = a := by
  split <;> simp_all

/-- The expression checker never emits the "must return a value"
diagnostic. -/
theorem noMR_expr_aux (st : SymTab) :
    ∀ n : Nat,
      (∀ e : Expr, esize e ≤ n →
        Diag.mustReturnValue ∉ (checkExpr st e).ds) ∧
      (∀ l : ExprList, lsize l ≤ n →
        Diag.mustReturnValue ∉ (checkExprList st l).ds) := by
  intro n
  induction n using Nat.strong_induction_on with
  | _ n ih =>
    constructor
    · intro e he
      match e with
      | .idn ty s => simp [checkExpr]; split <;> simp
      | .intlit ty v => simp [checkExpr]
      | .reallit ty v => simp [checkExpr]
      | .cast ty e1 => simp [checkExpr]
      | .uminus ty e1 =>
          have h1 : esize e1 < n := by simp [esize] at he; omega
          have ih1 := (ih (esize e1) h1).1 e1 (Nat.le_refl _)
          simp [checkExpr, ih1]
      | .notOp ty e1 =>
          have h1 : esize e1 < n := by simp [esize] at he; omega
          have ih1 := (ih (esize e1) h1).1 e1 (Nat.le_refl _)
          simp [checkExpr]
          split <;> simp_all
      | .binop ty op l r =>
          have h1 : esize l < n := by simp [esize] at he; omega
          have h2 : esize r < n := by simp [esize] at he; omega
          have ih1 := (ih (esize l) h1).1 l (Nat.le_refl _)
          have ih2 := (ih (esize r) h2).1 r (Nat.le_refl _)
          cases op <;> simp [checkExpr, mem_ite_single, ih1, ih2] <;>
            (try split_ifs) <;> simp_all
      | .binrel ty op l r =>
          have h1 : esize l < n := by simp [esize] at he; omega
          have h2 : esize r < n := by simp [esize] at he; omega
          have ih1 := (ih (esize l) h1).1 l (Nat.le_refl _)
          have ih2 := (ih (esize r) h2).1 r (Nat.le_refl _)
          simp [checkExpr, ih1, ih2]
          (try split_ifs) <;> simp_all
      | .indexed ty idTy idSym ix =>
          have h1 : esize ix < n := by simp [esize] at he; omega
          have ih1 := (ih (esize ix) h1).1 ix (Nat.le_refl _)
          simp [checkExpr, mem_ite_single, ih1]
      | .funccall ty f args =>
          have h1 : lsize args < n := by simp [esize] at he; omega
          have ih1 := (ih (lsize args) h1).2 args (Nat.le_refl _)
          simp [checkExpr, ih1]
          (try split_ifs) <;> simp_all
    · intro l hl
      match l with
      | .enil => simp [checkExprList]
      | .elist pre last =>
          have h1 : lsize pre < n := by simp [lsize] at hl; omega
          have h2 : esize last < n := by simp [lsize] at hl; omega
          have ih1 := (ih (lsize pre) h1).2 pre (Nat.le_refl _)
          have ih2 := (ih (esize last) h2).1 last (Nat.le_refl _)
          simp [checkExprList, ih1, ih2]

/-- The statement checker walk never emits the "must return a value"
diagnostic (only `do_typecheck` does), and the has-return flag it computes
is exactly the visited-return predicate: every return sets it, except those
inside an elsif body skipped because the elsif condition is not integer. -/
theorem stmt_walk_aux (st : SymTab) :
    ∀ n : Nat,
      (∀ s : Stmt, ssize s ≤ n →
        Diag.mustReturnValue ∉ (checkStmt st s).ds ∧
          (checkStmt st s).hr = visitedRetS st s) ∧
      (∀ sl : StmtList, slsize sl ≤ n →
        Diag.mustReturnValue ∉ (checkStmtList st sl).ds ∧
          (checkStmtList st sl).hr = visitedRetL st sl) ∧
      (∀ el : ElsifList, elsize el ≤ n →
        Diag.mustReturnValue ∉ (checkElsifList st el).ds ∧
          (checkElsifList st el).hr = visitedRetE st el) := by
  intro n
  induction n using Nat.strong_induction_on with
  | _ n ih =>
    refine ⟨?_, ?_, ?_⟩
    · intro s hs
      match s with
      | .assign lhs rhs =>
          have e1 := (noMR_expr_aux st (esize lhs)).1 lhs (Nat.le_refl _)
          have e2 := (noMR_expr_aux st (esize rhs)).1 rhs (Nat.le_refl _)
          simp [checkStmt, visitedRetS, mem_ite_single, e1, e2]
      | .procCall p args =>
          have e1 := (noMR_expr_aux st (lsize args)).2 args (Nat.le_refl _)
          simp [checkStmt, checkParameters, visitedRetS]
          split_ifs <;> simp_all
      | .whileS c b =>
          have hb : slsize b < n := by simp [ssize] at hs; omega
          have e1 := (noMR_expr_aux st (esize c)).1 c (Nat.le_refl _)
          have ihb := (ih (slsize b) hb).2.1 b (Nat.le_refl _)
          simp [checkStmt, visitedRetS, mem_ite_single, e1, ihb.1, ihb.2]
      | .ifS c b el eb =>
          have hb : slsize b < n := by simp [ssize] at hs; omega
          have hel : elsize el < n := by simp [ssize] at hs; omega
          have heb : slsize eb < n := by simp [ssize] at hs; omega
          have e1 := (noMR_expr_aux st (esize c)).1 c (Nat.le_refl _)
          have ihb := (ih (slsize b) hb).2.1 b (Nat.le_refl _)
          have ihel := (ih (elsize el) hel).2.2 el (Nat.le_refl _)
          have iheb := (ih (slsize eb) heb).2.1 eb (Nat.le_refl _)
          simp [checkStmt, visitedRetS, mem_ite_single, e1, ihb.1, ihb.2,
            ihel.1, ihel.2, iheb.1, iheb.2]
      | .ret none =>
          simp [checkStmt, visitedRetS, mem_ite_single]
      | .ret (some v) =>
          have e1 := (noMR_expr_aux st (esize v)).1 v (Nat.le_refl _)
          simp [checkStmt, visitedRetS, mem_ite_single]
          split_ifs <;> simp_all
    · intro sl hsl
      match sl with
      | .snil => simp [checkStmtList, visitedRetL]
      | .slist pre last =>
          have h1 : slsize pre < n := by simp [slsize] at hsl; omega
          have h2 : ssize last < n := by simp [slsize] at hsl; omega
          have ih1 := (ih (slsize pre) h1).2.1 pre (Nat.le_refl _)
          have ih2 := (ih (ssize last) h2).1 last (Nat.le_refl _)
          simp [checkStmtList, visitedRetL, ih1.1, ih1.2, ih2.1, ih2.2]
    · intro el hel
      match el with
      | .lnil => simp [checkElsifList, visitedRetE]
      | .llist pre c b =>
          have h1 : elsize pre < n := by simp [elsize] at hel; omega
          have h2 : slsize b < n := by simp [elsize] at hel; omega
          have e1 := (noMR_expr_aux st (esize c)).1 c (Nat.le_refl _)
          have ih1 := (ih (elsize pre) h1).2.2 pre (Nat.le_refl _)
          have ih2 := (ih (slsize b) h2).2.1 b (Nat.le_refl _)
          simp [checkElsifList, visitedRetE]
          split_ifs <;> simp_all [ih1.1, ih1.2, ih2.1, ih2.2]

/-- A formal/actual length mismatch makes `chk_param` fail without touching
any actual. -/
theorem chkParam_length_mismatch :
    ∀ (fs : List SymIdx) (acts : ExprList),
      fs.length ≠ lengthE acts → chkParam fs acts = (false, acts) := by
  intro fs
  induction fs with
  | nil =>
      intro acts h
      cases acts with
      | enil => simp [lengthE] at h
      | elist pre last => simp [chkParam]
  | cons f fs ihf =>
      intro acts h
      cases acts with
      | enil => simp [chkParam]
      | elist pre last =>
          have hne : fs.length ≠ lengthE pre := by
            simp [lengthE] at h; omega
          simp [chkParam, ihf pre hne]

/-- A constant leaf with constructor-typed literals resolves to exactly
its type field (a constant identifier is never a named type). -/
theorem const_resolvedTy (st : SymTab) (e : Expr)
    (hc : isConst st e = true) (hl : litsTypedE e = true) :
    resolvedTy st e = e.tyOf := by
  cases e <;> simp_all [isConst, litsTypedE, resolvedTy, Expr.tyOf]

/-- Outside the AND/OR-over-real-constants branch, `foldBinop` preserves
the node's resolved type (and constructor-typed literals). -/
theorem foldBinop_resolved (st : SymTab) (ty : SymIdx) (op : BinOp)
    (l r : Expr) (hl : litsTypedE l = true) (hr : litsTypedE r = true)
    (hexc : ¬((op = .andOp ∨ op = .orOp) ∧ isConst st l = true ∧
      isConst st r = true ∧ l.tyOf = real_type ∧ r.tyOf = real_type)) :
    litsTypedE (foldBinop st ty op l r) = true ∧
    resolvedTy st (foldBinop st ty op l r) =
      resolvedTy st (.binop ty op l r) := by
  unfold foldBinop
  split
  · rename_i hconst
    rw [Bool.and_eq_true] at hconst
    split
    · rename_i hint
      rw [Bool.and_eq_true] at hint
      have hlt : l.tyOf = integer_type := by
        have := hint.1; simp_all
      have hrt : r.tyOf = integer_type := by
        have := hint.2; simp_all
      have h1 := const_resolvedTy st l hconst.1 hl
      have h2 := const_resolvedTy st r hconst.2 hr
      cases op <;>
        simp_all [mkInt, litsTypedE, resolvedTy, integer_type]
    · split
      · rename_i hreal
        rw [Bool.and_eq_true] at hreal
        have hlt : l.tyOf = real_type := by
          have := hreal.1; simp_all
        have hrt : r.tyOf = real_type := by
          have := hreal.2; simp_all
        have h1 := const_resolvedTy st l hconst.1 hl
        have h2 := const_resolvedTy st r hconst.2 hr
        cases op <;>
          simp_all [mkReal, litsTypedE, resolvedTy, real_type]
      · simp_all [litsTypedE, resolvedTy]
  · simp_all [litsTypedE, resolvedTy]

/-- `chk_param` preserves written resolved-type fields: it only wraps
actuals in casts carrying `real`. -/
theorem chkParam_fieldsWritten (st : SymTab) :
    ∀ (fs : List SymIdx) (acts : ExprList),
      fieldsWrittenL st acts = true →
      fieldsWrittenL st (chkParam fs acts).2 = true := by
  intro fs
  induction fs with
  | nil =>
      intro acts h
      cases acts <;> simp_all [chkParam]
  | cons f fs ihf =>
      intro acts h
      cases acts with
      | enil => simp [chkParam, fieldsWrittenL]
      | elist pre last =>
          rw [fieldsWrittenL, Bool.and_eq_true] at h
          have h2 := ihf pre h.1
          simp only [chkParam]
          split_ifs <;>
            simp_all [fieldsWrittenL, fieldsWrittenE, mkCast]

/-- On cast-free input (parser trees), the checker's returned type equals
the spec-side `resolvedTy` of its output, and all resolved-type fields of
the output are written as `fieldsWrittenE` describes. -/
theorem check_resolved_aux (st : SymTab) :
    ∀ n : Nat,
      (∀ e : Expr, esize e ≤ n → noCastsE e = true →
        (checkExpr st e).rty = resolvedTy st (checkExpr st e).e ∧
        fieldsWrittenE st (checkExpr st e).e = true) ∧
      (∀ l : ExprList, lsize l ≤ n → noCastsL l = true →
        fieldsWrittenL st (checkExprList st l).l = true) := by
  intro n
  induction n using Nat.strong_induction_on with
  | _ n ih =>
    constructor
    · intro e he hnc
      match e with
      | .idn ty s =>
          simp [checkExpr, resolvedTy, fieldsWrittenE]
          split_ifs <;> simp_all [resolvedTy, fieldsWrittenE]
      | .intlit ty v => simp [checkExpr, resolvedTy, fieldsWrittenE]
      | .reallit ty v => simp [checkExpr, resolvedTy, fieldsWrittenE]
      | .cast ty e1 => simp [noCastsE] at hnc
      | .uminus ty e1 =>
          have h1 : esize e1 < n := by simp [esize] at he; omega
          rw [noCastsE] at hnc
          have ih1 := (ih (esize e1) h1).1 e1 (Nat.le_refl _) hnc
          simp [checkExpr, resolvedTy, fieldsWrittenE, ih1.1, ih1.2]
      | .notOp ty e1 =>
          have h1 : esize e1 < n := by simp [esize] at he; omega
          rw [noCastsE] at hnc
          have ih1 := (ih (esize e1) h1).1 e1 (Nat.le_refl _) hnc
          simp [checkExpr]
          split_ifs <;> simp_all [resolvedTy, fieldsWrittenE]
      | .binop ty op l r =>
          have h1 : esize l < n := by simp [esize] at he; omega
          have h2 : esize r < n := by simp [esize] at he; omega
          rw [noCastsE, Bool.and_eq_true] at hnc
          have ih1 := (ih (esize l) h1).1 l (Nat.le_refl _) hnc.1
          have ih2 := (ih (esize r) h2).1 r (Nat.le_refl _) hnc.2
          cases op <;>
            simp_all [checkExpr, resolvedTy, fieldsWrittenE, mkCast] <;>
            (try split_ifs) <;>
            simp_all [resolvedTy, fieldsWrittenE, mkCast]
      | .binrel ty op l r =>
          have h1 : esize l < n := by simp [esize] at he; omega
          have h2 : esize r < n := by simp [esize] at he; omega
          rw [noCastsE, Bool.and_eq_true] at hnc
          have ih1 := (ih (esize l) h1).1 l (Nat.le_refl _) hnc.1
          have ih2 := (ih (esize r) h2).1 r (Nat.le_refl _) hnc.2
          simp_all [checkExpr, resolvedTy, fieldsWrittenE, mkCast]
          (try split_ifs) <;>
            simp_all [resolvedTy, fieldsWrittenE, mkCast]
      | .indexed ty idTy idSym ix =>
          have h1 : esize ix < n := by simp [esize] at he; omega
          rw [noCastsE] at hnc
          have ih1 := (ih (esize ix) h1).1 ix (Nat.le_refl _) hnc
          simp_all [checkExpr, resolvedTy, fieldsWrittenE]
      | .funccall ty fsym args =>
          have h1 : lsize args < n := by simp [esize] at he; omega
          rw [noCastsE] at hnc
          have ih1 := (ih (lsize args) h1).2 args (Nat.le_refl _) hnc
          simp [checkExpr]
          split_ifs with h
          · exact ⟨by simp [resolvedTy],
              by simp [fieldsWrittenE]; exact chkParam_fieldsWritten st _ _ ih1⟩
          · exact ⟨by simp [resolvedTy], by simp [fieldsWrittenE, ih1]⟩
    · intro l hl hnc
      match l with
      | .enil => simp [checkExprList, fieldsWrittenL]
      | .elist pre last =>
          have h1 : lsize pre < n := by simp [lsize] at hl; omega
          have h2 : esize last < n := by simp [lsize] at hl; omega
          rw [noCastsL, Bool.and_eq_true] at hnc
          have ih1 := (ih (lsize pre) h1).2 pre (Nat.le_refl _) hnc.1
          have ih2 := (ih (esize last) h2).1 last (Nat.le_refl _) hnc.2
          simp [checkExprList, fieldsWrittenL, ih1, ih2.2]

/-- On cast-free parser bodies, the checker's output has all its visited
resolved-type fields written (`fieldsWrittenS`/`SL`/`EL`). -/
theorem check_fields_stmt_aux (st : SymTab) :
    ∀ n : Nat,
      (∀ s : Stmt, ssize s ≤ n → noCastsS s = true →
        fieldsWrittenS st (checkStmt st s).s = true) ∧
      (∀ sl : StmtList, slsize sl ≤ n → noCastsSL sl = true →
        fieldsWrittenSL st (checkStmtList st sl).sl = true) ∧
      (∀ el : ElsifList, elsize el ≤ n → noCastsEL el = true →
        fieldsWrittenEL st (checkElsifList st el).el = true) := by
  intro n
  induction n using Nat.strong_induction_on with
  | _ n ih =>
    refine ⟨?_, ?_, ?_⟩
    · intro s hs hnc
      match s with
      | .assign lhs rhs =>
          rw [noCastsS, Bool.and_eq_true] at hnc
          have e1 := (check_resolved_aux st (esize lhs)).1 lhs
            (Nat.le_refl _) hnc.1
          have e2 := (check_resolved_aux st (esize rhs)).1 rhs
            (Nat.le_refl _) hnc.2
          simp [checkStmt, fieldsWrittenS, e1.2, e2.2]
          split_ifs <;> simp_all [fieldsWrittenE, mkCast]
      | .procCall p args =>
          rw [noCastsS] at hnc
          have e1 := (check_resolved_aux st (lsize args)).2 args
            (Nat.le_refl _) hnc
          simp [checkStmt, checkParameters, fieldsWrittenS]
          split_ifs <;>
            simp_all [chkParam_fieldsWritten st _ _ e1]
      | .whileS c b =>
          have hb : slsize b < n := by simp [ssize] at hs; omega
          rw [noCastsS, Bool.and_eq_true] at hnc
          have e1 := (check_resolved_aux st (esize c)).1 c
            (Nat.le_refl _) hnc.1
          have ihb := (ih (slsize b) hb).2.1 b (Nat.le_refl _) hnc.2
          simp [checkStmt, fieldsWrittenS, e1.2, ihb]
      | .ifS c b el eb =>
          have hb : slsize b < n := by simp [ssize] at hs; omega
          have hel : elsize el < n := by simp [ssize] at hs; omega
          have heb : slsize eb < n := by simp [ssize] at hs; omega
          rw [noCastsS, Bool.and_eq_true, Bool.and_eq_true,
            Bool.and_eq_true] at hnc
          have e1 := (check_resolved_aux st (esize c)).1 c
            (Nat.le_refl _) hnc.1.1.1
          have ihb := (ih (slsize b) hb).2.1 b (Nat.le_refl _) hnc.1.1.2
          have ihel := (ih (elsize el) hel).2.2 el (Nat.le_refl _) hnc.1.2
          have iheb := (ih (slsize eb) heb).2.1 eb (Nat.le_refl _) hnc.2
          simp [checkStmt, fieldsWrittenS, e1.2, ihb, ihel, iheb]
      | .ret none => simp [checkStmt, fieldsWrittenS]
      | .ret (some v) =>
          rw [noCastsS] at hnc
          have e1 := (check_resolved_aux st (esize v)).1 v
            (Nat.le_refl _) hnc
          simp [checkStmt]
          split_ifs <;> simp_all [fieldsWrittenS]
    · intro sl hsl hnc
      match sl with
      | .snil => simp [checkStmtList, fieldsWrittenSL]
      | .slist pre last =>
          have h1 : slsize pre < n := by simp [slsize] at hsl; omega
          have h2 : ssize last < n := by simp [slsize] at hsl; omega
          rw [noCastsSL, Bool.and_eq_true] at hnc
          have ih1 := (ih (slsize pre) h1).2.1 pre (Nat.le_refl _) hnc.1
          have ih2 := (ih (ssize last) h2).1 last (Nat.le_refl _) hnc.2
          simp [checkStmtList, fieldsWrittenSL, ih1, ih2]
    · intro el hel hnc
      match el with
      | .lnil => simp [checkElsifList, fieldsWrittenEL]
      | .llist pre c b =>
          have h1 : elsize pre < n := by simp [elsize] at hel; omega
          have h2 : slsize b < n := by simp [elsize] at hel; omega
          rw [noCastsEL, Bool.and_eq_true, Bool.and_eq_true] at hnc
          have e1 := (check_resolved_aux st (esize c)).1 c
            (Nat.le_refl _) hnc.1.2
          have ih1 := (ih (elsize pre) h1).2.2 pre (Nat.le_refl _) hnc.1.1
          have ih2 := (ih (slsize b) h2).2.1 b (Nat.le_refl _) hnc.2
          simp [checkElsifList]
          split_ifs with h
          · -- the condition resolves to integer: the body was checked
            simp [fieldsWrittenEL, ih1, e1.2]
            exact Or.inr ih2
          · -- skipped elsif body: the guard in fieldsWrittenEL is false
            -- because the condition resolves to a non-integer type
            simp [fieldsWrittenEL, ih1, e1.2]
            rw [e1.1] at h
            exact Or.inl h

/-- Folding preserves constructor-typed literals and — in the absence of
AND/OR-over-real-constants folds — the resolved type of every
expression. -/
theorem fold_resolved_aux (st : SymTab) :
    ∀ n : Nat,
      (∀ e : Expr, esize e ≤ n → litsTypedE e = true → noBRF st e = true →
        litsTypedE (fold_constants st e) = true ∧
        resolvedTy st (fold_constants st e) = resolvedTy st e) ∧
      (∀ l : ExprList, lsize l ≤ n → litsTypedL l = true →
        noBRFL st l = true →
        litsTypedL (foldExprList st l) = true) := by
  intro n
  induction n using Nat.strong_induction_on with
  | _ n ih =>
    constructor
    · intro e he hlit hbrf
      match e with
      | .idn ty s => simp [fc_idn, hlit]
      | .intlit ty v => simp_all [fc_intlit, litsTypedE]
      | .reallit ty v => simp_all [fc_reallit, litsTypedE]
      | .cast ty e1 => simp_all [fc_cast, litsTypedE]
      | .uminus ty e1 =>
          have h1 : esize e1 < n := by simp [esize] at he; omega
          rw [litsTypedE] at hlit
          rw [noBRF] at hbrf
          have ih1 := (ih (esize e1) h1).1 e1 (Nat.le_refl _) hlit hbrf
          simp [fc_uminus, litsTypedE, resolvedTy, ih1.1, ih1.2]
      | .notOp ty e1 =>
          have h1 : esize e1 < n := by simp [esize] at he; omega
          rw [litsTypedE] at hlit
          rw [noBRF] at hbrf
          have ih1 := (ih (esize e1) h1).1 e1 (Nat.le_refl _) hlit hbrf
          simp [fc_notOp, litsTypedE, resolvedTy, ih1.1, ih1.2]
      | .indexed ty idTy idSym ix =>
          have h1 : esize ix < n := by simp [esize] at he; omega
          rw [litsTypedE] at hlit
          rw [noBRF] at hbrf
          have ih1 := (ih (esize ix) h1).1 ix (Nat.le_refl _) hlit hbrf
          simp [fc_indexed, litsTypedE, resolvedTy, ih1.1]
      | .binrel ty op l r =>
          have h1 : esize l < n := by simp [esize] at he; omega
          have h2 : esize r < n := by simp [esize] at he; omega
          rw [litsTypedE, Bool.and_eq_true] at hlit
          rw [noBRF, Bool.and_eq_true] at hbrf
          have ih1 := (ih (esize l) h1).1 l (Nat.le_refl _) hlit.1 hbrf.1
          have ih2 := (ih (esize r) h2).1 r (Nat.le_refl _) hlit.2 hbrf.2
          simp [fc_binrel, litsTypedE, resolvedTy, ih1.1, ih2.1]
      | .funccall ty fsym args =>
          have h1 : lsize args < n := by simp [esize] at he; omega
          rw [litsTypedE] at hlit
          rw [noBRF] at hbrf
          have ih1 := (ih (lsize args) h1).2 args (Nat.le_refl _) hlit hbrf
          simp [fc_funccall, litsTypedE, resolvedTy, ih1]
      | .binop ty op l r =>
          have h1 : esize l < n := by simp [esize] at he; omega
          have h2 : esize r < n := by simp [esize] at he; omega
          rw [litsTypedE, Bool.and_eq_true] at hlit
          rw [noBRF, Bool.and_eq_true, Bool.and_eq_true] at hbrf
          have ih1 := (ih (esize l) h1).1 l (Nat.le_refl _) hlit.1
            hbrf.1.1
          have ih2 := (ih (esize r) h2).1 r (Nat.le_refl _) hlit.2
            hbrf.1.2
          have hexc : ¬((op = .andOp ∨ op = .orOp) ∧
              isConst st (fold_constants st l) = true ∧
              isConst st (fold_constants st r) = true ∧
              (fold_constants st l).tyOf = real_type ∧
              (fold_constants st r).tyOf = real_type) := by
            have hb := hbrf.2
            rw [fc_idem, fc_idem] at hb
            intro hcon
            rcases hcon with ⟨hop, hc1, hc2, ht1, ht2⟩
            rcases hop with h | h <;> subst h <;>
              simp_all
          have hfb := foldBinop_resolved st ty op (fold_constants st l)
            (fold_constants st r) ih1.1 ih2.1 hexc
          rw [fc_binop, fc_idem, fc_idem]
          refine ⟨hfb.1, ?_⟩
          rw [hfb.2]
          cases op <;> simp [resolvedTy, ih1.2, ih2.2]
    · intro l hl hlit hbrf
      match l with
      | .enil => simp [fel_enil, litsTypedL]
      | .elist pre last =>
          have h1 : lsize pre < n := by simp [lsize] at hl; omega
          have h2 : esize last < n := by simp [lsize] at hl; omega
          rw [litsTypedL, Bool.and_eq_true] at hlit
          rw [noBRFL, Bool.and_eq_true] at hbrf
          have ih1 := (ih (lsize pre) h1).2 pre (Nat.le_refl _) hlit.1
            hbrf.1
          have ih2 := (ih (esize last) h2).1 last (Nat.le_refl _) hlit.2
            hbrf.2
          simp [fel_elist, litsTypedL, ih1, ih2.1]

/-! ## Claim theorems -/

/-- C1 counterexample: after the checker's pass over a body, an OR node
reachable in that body still carries the parser-initial `void_type` in its
resolved-type field (here the whole checked body is unchanged, OR node
included), even though the checker computed and returned `integer` for it:
`ast_or::type_check` never assigns the field, so not every expression node
has its resolved-type field written. -/
theorem c1_counterexample :
    (doTypecheck stF 4
        (.slist .snil (.assign (.idn integer_type 1)
          (.binop void_type .orOp (.intlit integer_type 1)
            (.intlit integer_type 2))))).body =
      .slist .snil (.assign (.idn integer_type 1)
        (.binop void_type .orOp (.intlit integer_type 1)
          (.intlit integer_type 2))) ∧
    (checkExpr stF (.binop void_type .orOp (.intlit integer_type 1)
        (.intlit integer_type 2))).rty = integer_type ∧
    void_type ≠ integer_type := by
  refine ⟨by decide, by decide, by decide⟩

/-- C1 (amended): after the Type Checker's pass over a parser-produced
(cast-free) body, every expression node the walk visits whose `type_check`
assigns the resolved-type field — add, sub, mult, divide, AND, DIV, MOD,
the four relations, and indexed accesses — carries exactly the type the
checker computes for it (`resolvedTy`, proven here to equal the checker's
returned type), and every synthesized cast carries `real`; OR, unary-minus
and NOT nodes do NOT have the field written, because their `type_check`
methods return the computed type without assigning it, keeping the prior
field value; nodes inside an elsif body skipped for a non-integer
condition are not visited at all (see `fieldsWrittenEL`). -/
theorem c1_field_written_amended (st : SymTab) (env : Nat)
    (body : StmtList) (hnc : noCastsSL body = true) :
    fieldsWrittenSL st (doTypecheck st env body).body = true ∧
    (∀ e0 : Expr, noCastsE e0 = true →
      (checkExpr st e0).rty = resolvedTy st (checkExpr st e0).e) ∧
    (∀ (ty idTy : SymIdx) (idSym : Nat) (ix : Expr),
      (checkExpr st (.indexed ty idTy idSym ix)).e.tyOf =
        (checkExpr st (.indexed ty idTy idSym ix)).rty) ∧
    (∀ (ty : SymIdx) (op : BinOp) (l r : Expr), op ≠ .orOp →
      (checkExpr st (.binop ty op l r)).e.tyOf =
        (checkExpr st (.binop ty op l r)).rty) ∧
    (∀ (ty : SymIdx) (rop : RelOp) (l r : Expr),
      (checkExpr st (.binrel ty rop l r)).e.tyOf =
        (checkExpr st (.binrel ty rop l r)).rty) ∧
    (∀ (ty : SymIdx) (l r : Expr),
      (checkExpr st (.binop ty .orOp l r)).e.tyOf = ty) ∧
    (∀ (ty : SymIdx) (e : Expr),
      (checkExpr st (.uminus ty e)).e.tyOf = ty) ∧
    (∀ (ty : SymIdx) (e : Expr),
      (checkExpr st (.notOp ty e)).e.tyOf = ty) := by
  refine ⟨?_, ?_, ?_, ?_, ?_, ?_, ?_, ?_⟩
  · have h := (check_fields_stmt_aux st (slsize body)).2.1 body
      (Nat.le_refl _) hnc
    simpa [doTypecheck] using h
  · intro e0 h0
    exact ((check_resolved_aux st (esize e0)).1 e0 (Nat.le_refl _) h0).1
  · intro ty idTy idSym ix
    simp [checkExpr, Expr.tyOf]
  · intro ty op l r hop
    cases op <;> simp_all [checkExpr, Expr.tyOf] <;>
      (try split_ifs) <;> simp [Expr.tyOf]
  · intro ty rop l r
    simp [checkExpr, Expr.tyOf]
    split_ifs <;> simp [Expr.tyOf]
  · intro ty l r
    simp [checkExpr, Expr.tyOf]
  · intro ty e
    simp [checkExpr, Expr.tyOf]
  · intro ty e
    simp [checkExpr, Expr.tyOf]
    split_ifs <;> simp [Expr.tyOf]

/-- C1 witness: the body-level conjunct at a concrete cast-free body (an
assignment of `1 + 2` to an integer variable). -/
theorem c1_witness :
    noCastsSL (.slist .snil (.assign (.idn integer_type 1)
      (.binop void_type .add (.intlit integer_type 1)
        (.intlit integer_type 2)))) = true ∧
    fieldsWrittenSL stF (doTypecheck stF 4
      (.slist .snil (.assign (.idn integer_type 1)
        (.binop void_type .add (.intlit integer_type 1)
          (.intlit integer_type 2))))).body = true :=
  ⟨by decide,
    (c1_field_written_amended stF 4
      (.slist .snil (.assign (.idn integer_type 1)
        (.binop void_type .add (.intlit integer_type 1)
          (.intlit integer_type 2)))) (by decide)).1⟩

/-- C3 counterexample: a division operand whose resolved type is the named
type 5 — not `real` — is NOT wrapped in a cast (the checker only wraps
operands whose resolved type is `integer`), refuting "every operand whose
resolved type is not already real is wrapped". -/
theorem c3_counterexample :
    (checkExpr stF (.binop void_type .divide (.idn 5 2)
        (.reallit real_type 1))).e =
      .binop real_type .divide (.idn 5 2) (.reallit real_type 1) ∧
    (checkExpr stF (.idn 5 2)).rty = 5 ∧ (5 : SymIdx) ≠ real_type := by
  refine ⟨by decide, by decide, by decide⟩

/-- C3 (amended): `ast_divide::type_check` always resolves to `real`
(returned type and written field), and an operand is wrapped in a
synthesized cast exactly when its resolved type is `integer` (so both are
wrapped when both start as integer); operands of any other non-real
resolved type are left unwrapped. -/
theorem c3_divide_amended (st : SymTab) (ty : SymIdx) (l r : Expr) :
    (checkExpr st (.binop ty .divide l r)).rty = real_type ∧
    (checkExpr st (.binop ty .divide l r)).e =
      .binop real_type .divide
        (if (checkExpr st l).rty = integer_type then mkCast (checkExpr st l).e
         else (checkExpr st l).e)
        (if (checkExpr st r).rty = integer_type then mkCast (checkExpr st r).e
         else (checkExpr st r).e) ∧
    (checkExpr st (.binop ty .divide l r)).ds =
      (checkExpr st l).ds ++ (checkExpr st r).ds := by
  simp [checkExpr]

/-- C4: for an add, subtract or multiply node, differing operand resolved
types make the node `real` (returned and written) with each operand that is
not already `real` cast-wrapped; matching operand types make the node's
resolved type that common type with both operands left unwrapped. -/
theorem c4_binop1 (st : SymTab) (ty : SymIdx) (op : BinOp) (l r : Expr)
    (hop : op = .add ∨ op = .sub ∨ op = .mult) :
    ((checkExpr st l).rty ≠ (checkExpr st r).rty →
      (checkExpr st (.binop ty op l r)).rty = real_type ∧
      (checkExpr st (.binop ty op l r)).e.tyOf = real_type ∧
      (checkExpr st (.binop ty op l r)).e.leftChild =
        (if (checkExpr st l).rty ≠ real_type then mkCast (checkExpr st l).e
         else (checkExpr st l).e) ∧
      (checkExpr st (.binop ty op l r)).e.rightChild =
        (if (checkExpr st r).rty ≠ real_type then mkCast (checkExpr st r).e
         else (checkExpr st r).e)) ∧
    ((checkExpr st l).rty = (checkExpr st r).rty →
      (checkExpr st (.binop ty op l r)).rty = (checkExpr st l).rty ∧
      (checkExpr st (.binop ty op l r)).e.tyOf = (checkExpr st l).rty ∧
      (checkExpr st (.binop ty op l r)).e.leftChild = (checkExpr st l).e ∧
      (checkExpr st (.binop ty op l r)).e.rightChild =
        (checkExpr st r).e) := by
  rcases hop with h | h | h <;> subst h <;> constructor <;> intro hne <;>
    simp [checkExpr, hne, Expr.tyOf, Expr.leftChild, Expr.rightChild]

/-- C4 witness: `integer + real` resolves to `real` at a concrete input. -/
theorem c4_witness :
    (BinOp.add = BinOp.add ∨ BinOp.add = BinOp.sub ∨
      BinOp.add = BinOp.mult) ∧
    (checkExpr stF (.intlit integer_type 2)).rty ≠
      (checkExpr stF (.reallit real_type 1)).rty ∧
    (checkExpr stF (.binop void_type .add (.intlit integer_type 2)
        (.reallit real_type 1))).rty = real_type :=
  ⟨Or.inl rfl, by decide,
    ((c4_binop1 stF void_type .add (.intlit integer_type 2)
        (.reallit real_type 1) (Or.inl rfl)).1 (by decide)).1⟩

/-- C8 counterexample: a NOT node applied to a real operand reports the
error but resolves to `void_type`, not `integer`, refuting "the NOT node's
result type is always integer". -/
theorem c8_counterexample :
    (checkExpr stF (.notOp void_type (.reallit real_type 1))).rty =
      void_type ∧
    void_type ≠ integer_type ∧
    (checkExpr stF (.notOp void_type (.reallit real_type 1))).ds =
      [Diag.notOperandNotInteger] := by
  refine ⟨by decide, by decide, by decide⟩

/-- C8 (amended): unary minus returns its operand's resolved type with no
coercion inserted and no diagnostic of its own; NOT returns `integer` when
its operand is integer, and on a non-integer operand reports an error and
returns `void_type`. -/
theorem c8_uminus_not_amended (st : SymTab) (ty : SymIdx) (e : Expr) :
    ((checkExpr st (.uminus ty e)).rty = (checkExpr st e).rty ∧
      (checkExpr st (.uminus ty e)).e = .uminus ty (checkExpr st e).e ∧
      (checkExpr st (.uminus ty e)).ds = (checkExpr st e).ds) ∧
    ((checkExpr st e).rty = integer_type →
      (checkExpr st (.notOp ty e)).rty = integer_type ∧
      (checkExpr st (.notOp ty e)).ds = (checkExpr st e).ds) ∧
    ((checkExpr st e).rty ≠ integer_type →
      (checkExpr st (.notOp ty e)).rty = void_type ∧
      (checkExpr st (.notOp ty e)).ds =
        (checkExpr st e).ds ++ [Diag.notOperandNotInteger]) := by
  refine ⟨⟨?_, ?_, ?_⟩, ?_, ?_⟩ <;> simp [checkExpr] <;> intro h <;>
    simp [h]

/-- C8 witness: NOT of an integer literal resolves to `integer`. -/
theorem c8_witness :
    (checkExpr stF (.intlit integer_type 3)).rty = integer_type ∧
    (checkExpr stF (.notOp void_type (.intlit integer_type 3))).rty =
      integer_type :=
  ⟨by decide,
    ((c8_uminus_not_amended stF void_type (.intlit integer_type 3)).2.1
      (by decide)).1⟩

/-- C5 counterexample: two aligned formal/actual pairs (equal lengths); the
leading pair fails (types differ, formal not real), so `chk_param` returns
false without processing the trailing pair — whose formal IS `real` and
whose actual's type differs, yet no cast is inserted (the actual list comes
back unchanged).  This refutes "the actual is cast-wrapped exactly when the
formal's type is real". -/
theorem c5_counterexample :
    chkParam [real_type, 5]
        (.elist (.elist .enil (.intlit integer_type 2))
          (.intlit integer_type 1)) =
      (false, .elist (.elist .enil (.intlit integer_type 2))
        (.intlit integer_type 1)) ∧
    (Expr.intlit integer_type 1).tyOf ≠ real_type ∧
    ([real_type, 5] : List SymIdx).length =
      lengthE (.elist (.elist .enil (.intlit integer_type 2))
        (.intlit integer_type 1)) := by
  refine ⟨by decide, by decide, by decide⟩

/-- C5 (amended): a formal/actual length mismatch makes `chk_param` fail
with no actual touched and no diagnostic; `check_parameters` emits no
diagnostic beyond those of type checking the actuals themselves; an aligned
pair is processed only after all leading pairs succeeded, and then a type
mismatch wraps the actual in a cast exactly when the formal is `real`
(failing silently otherwise); once a pair has failed, the remaining
trailing pairs are not processed and no cast is inserted for them. -/
theorem c5_param_amended (st : SymTab) :
    (∀ (fs : List SymIdx) (acts : ExprList),
      fs.length ≠ lengthE acts → chkParam fs acts = (false, acts)) ∧
    (∀ (callee : Nat) (params : ExprList),
      (st.syms callee).tag = SymKind.func ∨
        (st.syms callee).tag = SymKind.proc →
      (checkParameters st callee params).ds = (checkExprList st params).ds) ∧
    (∀ (f : SymIdx) (fs : List SymIdx) (pre : ExprList) (last : Expr),
      (chkParam fs pre).1 = true → last.tyOf ≠ f →
      chkParam (f :: fs) (.elist pre last) =
        (if f = real_type
         then (true, .elist (chkParam fs pre).2 (mkCast last))
         else (false, .elist (chkParam fs pre).2 last))) ∧
    (∀ (f : SymIdx) (fs : List SymIdx) (pre : ExprList) (last : Expr),
      (chkParam fs pre).1 = false →
      chkParam (f :: fs) (.elist pre last) =
        (false, .elist (chkParam fs pre).2 last)) := by
  refine ⟨chkParam_length_mismatch, ?_, ?_, ?_⟩
  · intro callee params h
    simp [checkParameters, h]
  · intro f fs pre last h1 h2
    simp [chkParam, h1, h2]
  · intro f fs pre last h1
    simp [chkParam, h1]

/-- C5 witness: the length-mismatch and wrapped-pair conjuncts applied at
concrete inputs. -/
theorem c5_witness :
    ([integer_type] : List SymIdx).length ≠ lengthE .enil ∧
    chkParam [integer_type] .enil = (false, .enil) :=
  ⟨by decide, (c5_param_amended stF).1 [integer_type] .enil (by decide)⟩

/-- C6 counterexample: a function body whose only `return` sits inside an
elsif body; the elsif condition is real, so `ast_elsif::type_check` reports
the condition error and returns before walking that body — the return is
never visited, and "A function must return a value." is emitted even though
a return occurs in the statement tree.  This refutes the "if and only if no
return statement occurs anywhere" direction. -/
theorem c6_counterexample :
    countMustRet (doTypecheck stF 4
        (.slist .snil (.ifS (.intlit integer_type 1) .snil
          (.llist .lnil (.reallit real_type 1)
            (.slist .snil (.ret none)))
          .snil))).ds = 1 ∧
    hasRetSynL (.slist .snil (.ifS (.intlit integer_type 1) .snil
        (.llist .lnil (.reallit real_type 1)
          (.slist .snil (.ret none)))
        .snil)) = true ∧
    (stF.syms 4).tag = SymKind.func := by
  refine ⟨by decide, by decide, by decide⟩

/-- C6 (amended): for every body, the "must return a value" diagnostic is
emitted exactly once iff the enclosing symbol is a function and the walk
visited no return statement, where the walk reaches every return except
those inside an elsif body skipped because the elsif condition does not
resolve to integer (a return nested inside an if or while at any depth is
visited and suppresses the diagnostic). -/
theorem c6_return_amended (st : SymTab) (env : Nat) (body : StmtList) :
    countMustRet (doTypecheck st env body).ds =
      (if (st.syms env).tag = SymKind.func ∧ visitedRetL st body = false
       then 1 else 0) := by
  have h := (stmt_walk_aux st (slsize body)).2.1 body (Nat.le_refl _)
  simp [doTypecheck, countMustRet, List.count_append,
    List.count_eq_zero_of_not_mem h.1, h.2]
  split_ifs <;> simp

/-- Constant leaves (literals and constant identifiers) are fixed points of
the folder. -/
theorem fc_fix_of_isConst (st : SymTab) (e : Expr)
    (h : isConst st e = true) : fold_constants st e = e := by
  cases e <;> simp_all [isConst, fc_intlit, fc_reallit, fc_idn]

/-- When `foldBinop` replaces the node by a literal, that literal's type
field equals the (common) type field of both children. -/
theorem foldBinop_lit_ty (st : SymTab) (ty : SymIdx) (op : BinOp)
    (l r : Expr) (h : isLit (foldBinop st ty op l r) = true) :
    (foldBinop st ty op l r).tyOf = l.tyOf ∧
      (foldBinop st ty op l r).tyOf = r.tyOf := by
  unfold foldBinop at *
  split at *
  · split at *
    · cases op <;> simp_all [mkInt, Expr.tyOf, isLit]
    · split at *
      · cases op <;> simp_all [mkReal, Expr.tyOf, isLit]
      · simp_all [isLit]
  · simp_all [isLit]

/-- C2 counterexample: the Type Checker resolves an AND node to `integer`
(writing the field), but with two real-typed constant children the folder's
real/real branch replaces the node by a REAL literal — folding changed the
node's resolved type. -/
theorem c2_counterexample :
    (checkExpr stF (.binop void_type .andOp (.reallit real_type 1)
        (.reallit real_type 1))).e =
      .binop integer_type .andOp (.reallit real_type 1)
        (.reallit real_type 1) ∧
    (checkExpr stF (.binop void_type .andOp (.reallit real_type 1)
        (.reallit real_type 1))).rty = integer_type ∧
    fold_constants stF (.binop integer_type .andOp (.reallit real_type 1)
        (.reallit real_type 1)) = .reallit real_type 1 ∧
    (Expr.reallit real_type 1).tyOf ≠
      (Expr.binop integer_type .andOp (.reallit real_type 1)
        (.reallit real_type 1)).tyOf := by
  refine ⟨by decide, by decide, ?_, by decide⟩
  simp [fc_binop, fc_reallit, foldBinop, isConst, realValOf, Expr.tyOf,
    mkReal, integer_type, real_type]

/-- C2 (amended): when `fold_constants` replaces a binary-operation node
by a new literal, the literal's resolved type equals the common resolved
type of the two folded children — `integer` in the integer branch and
`real` in the real branch; moreover, provided no AND/OR node over two
real-typed constants gets folded in the node or its descendants (`noBRF`),
the literal's type equals the type the Type Checker gives the node
(`resolvedTy`, proven in the last conjunct to equal the checker's returned
type on cast-free trees).  In the excluded AND/OR-over-real branch the
checker gives `integer` but the replacement is a real literal (the
counterexample), and that discrepancy propagates to enclosing folds. -/
theorem c2_fold_type_amended (st : SymTab) (ty : SymIdx) (op : BinOp)
    (l r : Expr) :
    (isLit (fold_constants st (.binop ty op l r)) = true →
      (fold_constants st (.binop ty op l r)).tyOf =
        (fold_constants st (fold_constants st l)).tyOf ∧
      (fold_constants st (.binop ty op l r)).tyOf =
        (fold_constants st (fold_constants st r)).tyOf) ∧
    (litsTypedE (.binop ty op l r) = true →
      noBRF st (.binop ty op l r) = true →
      isLit (fold_constants st (.binop ty op l r)) = true →
      (fold_constants st (.binop ty op l r)).tyOf =
        resolvedTy st (.binop ty op l r)) ∧
    (∀ e0 : Expr, noCastsE e0 = true →
      (checkExpr st e0).rty = resolvedTy st (checkExpr st e0).e) := by
  refine ⟨?_, ?_, ?_⟩
  · intro hrep
    rw [fc_binop] at hrep ⊢
    exact foldBinop_lit_ty st ty op _ _ hrep
  · intro hlit hbrf hrep
    have h := (fold_resolved_aux st (esize (.binop ty op l r))).1 _
      (Nat.le_refl _) hlit hbrf
    have hfin : resolvedTy st (fold_constants st (.binop ty op l r)) =
        (fold_constants st (.binop ty op l r)).tyOf := by
      have h1 := h.1
      generalize fold_constants st (.binop ty op l r) = F at hrep h1 ⊢
      cases F <;> simp_all [isLit, litsTypedE, resolvedTy, Expr.tyOf]
    rw [← hfin]
    exact h.2
  · intro e0 h0
    exact ((check_resolved_aux st (esize e0)).1 e0 (Nat.le_refl _) h0).1

/-- C2 witness: folding `2 + 3` (no AND/OR-over-real fold anywhere) yields
a literal whose type is both the folded children's type and the
checker-given type of the node. -/
theorem c2_witness :
    litsTypedE (.binop integer_type .add (.intlit integer_type 2)
      (.intlit integer_type 3)) = true ∧
    noBRF stF (.binop integer_type .add (.intlit integer_type 2)
      (.intlit integer_type 3)) = true ∧
    isLit (fold_constants stF (.binop integer_type .add
      (.intlit integer_type 2) (.intlit integer_type 3))) = true ∧
    (fold_constants stF (.binop integer_type .add
        (.intlit integer_type 2) (.intlit integer_type 3))).tyOf =
      resolvedTy stF (.binop integer_type .add (.intlit integer_type 2)
        (.intlit integer_type 3)) := by
  have hlit : isLit (fold_constants stF (.binop integer_type .add
      (.intlit integer_type 2) (.intlit integer_type 3))) = true := by
    simp [fc_binop, fc_intlit, foldBinop, isConst, Expr.tyOf, mkInt, isLit]
  refine ⟨by decide, by decide, hlit,
    (c2_fold_type_amended stF integer_type .add (.intlit integer_type 2)
      (.intlit integer_type 3)).2.1 (by decide) (by decide) hlit⟩

/-- C7: a DIV (respectively MOD) node whose two folded children are
integer-typed constants is replaced by the literal truncating quotient
(respectively the remainder of truncating division, C++ `/` and `%` on
`long`); the nonzero-divisor hypothesis is the claim's well-definedness
precondition, and no zero-divisor guard exists — with a constant divisor 0
the node is still replaced (in C++ that evaluation is undefined
behaviour). -/
theorem c7_idiv_mod (st : SymTab) (ty : SymIdx) (l r : Expr)
    (hl : isConst st l = true) (hr : isConst st r = true)
    (hlt : l.tyOf = integer_type) (hrt : r.tyOf = integer_type)
    (hnz : intValOf st r ≠ 0) :
    fold_constants st (.binop ty .idiv l r) =
      .intlit integer_type ((intValOf st l).tdiv (intValOf st r)) ∧
    fold_constants st (.binop ty .modOp l r) =
      .intlit integer_type ((intValOf st l).tmod (intValOf st r)) ∧
    isLit (fold_constants st (.binop ty .idiv (.intlit integer_type 1)
      (.intlit integer_type 0))) = true := by
  refine ⟨?_, ?_, ?_⟩
  · rw [fc_binop, fc_fix_of_isConst st l hl, fc_fix_of_isConst st l hl,
      fc_fix_of_isConst st r hr, fc_fix_of_isConst st r hr]
    simp [foldBinop, hl, hr, hlt, hrt, mkInt]
  · rw [fc_binop, fc_fix_of_isConst st l hl, fc_fix_of_isConst st l hl,
      fc_fix_of_isConst st r hr, fc_fix_of_isConst st r hr]
    simp [foldBinop, hl, hr, hlt, hrt, mkInt]
  · simp [fc_binop, fc_intlit, foldBinop, isConst, Expr.tyOf, mkInt, isLit]

/-- C7 witness: `-7 DIV 2 = -3` and `-7 MOD 2 = -1` (truncating), at
concrete literals, with a nonzero divisor. -/
theorem c7_witness :
    isConst stF (.intlit integer_type (-7)) = true ∧
    isConst stF (.intlit integer_type 2) = true ∧
    (Expr.intlit integer_type (-7)).tyOf = integer_type ∧
    (Expr.intlit integer_type 2).tyOf = integer_type ∧
    intValOf stF (.intlit integer_type 2) ≠ 0 ∧
    fold_constants stF (.binop integer_type .idiv
        (.intlit integer_type (-7)) (.intlit integer_type 2)) =
      .intlit integer_type (-3) := by
  refine ⟨by decide, by decide, by decide, by decide, by decide, ?_⟩
  have h := (c7_idiv_mod stF integer_type (.intlit integer_type (-7))
    (.intlit integer_type 2) (by decide) (by decide) (by decide) (by decide)
    (by decide)).1
  rw [h]
  decide

/-- C9: running the folding pass a second time over an already-folded body
returns it unchanged — the pass is idempotent (and `optimize.cc` contains
no diagnostic-reporting call at all, so no diagnostics are ever emitted by
either run). -/
theorem c9_fold_idempotent (st : SymTab) (body : StmtList) :
    doOptimize st (doOptimize st body) = doOptimize st body := by
  simp only [doOptimize]
  exact (opt_idem_aux st (slsize body)).2.1 body (Nat.le_refl _)

/-- C10: a node that is not one of the eight arithmetic/logical binary
operations is never itself replaced by `fold_constants` — its dynamic class
(tag) is preserved, whatever its operands (constant or not); casts are not
even recursed into; and a binop CAN change class (folding `2 + 3` turns an
add node into an integer literal). -/
theorem c10_only_binops_replaced (st : SymTab) :
    (∀ e : Expr, isBinopE e = false →
      tagOf (fold_constants st e) = tagOf e) ∧
    (∀ (ty : SymIdx) (e1 : Expr),
      fold_constants st (.cast ty e1) = .cast ty e1) ∧
    tagOf (fold_constants st (.binop integer_type .add
        (.intlit integer_type 2) (.intlit integer_type 3))) ≠
      tagOf (.binop integer_type .add (.intlit integer_type 2)
        (.intlit integer_type 3)) := by
  refine ⟨?_, ?_, ?_⟩
  · intro e he
    match e with
    | .idn ty s => rw [fc_idn]
    | .intlit ty v => rw [fc_intlit]
    | .reallit ty v => rw [fc_reallit]
    | .cast ty e1 => rw [fc_cast]
    | .uminus ty e1 => rw [fc_uminus]; rfl
    | .notOp ty e1 => rw [fc_notOp]; rfl
    | .indexed ty idTy idSym ix => rw [fc_indexed]; rfl
    | .funccall ty f args => rw [fc_funccall]; rfl
    | .binrel ty op l r => rw [fc_binrel]; cases op <;> rfl
    | .binop ty op l r => simp [isBinopE] at he
  · intro ty e1
    exact fc_cast st ty e1
  · simp [fc_binop, fc_intlit, foldBinop, isConst, Expr.tyOf, mkInt, isLit,
      tagOf]

/-- C10 witness: an equality relation over two constant operands keeps its
class under folding. -/
theorem c10_witness :
    isBinopE (.binrel void_type .eq (.intlit integer_type 1)
      (.intlit integer_type 2)) = false ∧
    tagOf (fold_constants stF (.binrel void_type .eq
        (.intlit integer_type 1) (.intlit integer_type 2))) =
      tagOf (.binrel void_type .eq (.intlit integer_type 1)
        (.intlit integer_type 2)) :=
  ⟨by decide, (c10_only_binops_replaced stF).1 _ (by decide)⟩
